import Mathlib

/-!
# sitespeed.io-api: a shallow embedding of the request handlers

The development embeds `internal/handler/handler.go`, `internal/utils/zip.go`,
`internal/storage/storage.go` and `internal/models/models.go`.

Modelling conventions.

* A filesystem path is the list of its components below the root (`Path`), as on a
  Unix host where `filepath.Separator` is `/`.  `filepath.Join` and `filepath.Clean`
  work on components; strings are split at `/`.
* The filesystem is a tree (`Node`); the object store is a map from keys to contents.
* Failures imposed by the environment (permissions, I/O, network) come from the
  oracle `Env.fails`; failures that follow from the state (a missing file, a missing
  object) are computed from the state.
* The external tool, the JSON decoders and the zip codec are fields of `Env`.
* Every filesystem, store and subprocess operation appends an event to `World.log`.
* Response headers are not modelled; a response is a status and a body.
-/

namespace Sitespeed

/-! ## Package `strings` -/

namespace strings

/-- Whether `sub` occurs in `s` as a contiguous block (on character lists). -/
def containsChars (s sub : List Char) : Bool :=
  match s with
  | [] => sub.isEmpty
  | c :: cs => sub.isPrefixOf (c :: cs) || containsChars cs sub

/-- Go `strings.Contains`. -/
def Contains (s substr : String) : Bool :=
  containsChars s.data substr.data

/-- Go `strings.HasSuffix`. -/
def HasSuffix (s suffix : String) : Bool :=
  suffix.data.isSuffixOf s.data

/-- Replacement scan of `strings.ReplaceAll` for a non-empty `old`: `skip` counts the
characters of a match that are still to be dropped. -/
def replaceChars (old new : List Char) : Nat → List Char → List Char
  | _, [] => []
  | skip + 1, _ :: cs => replaceChars old new skip cs
  | 0, c :: cs =>
    if old.isPrefixOf (c :: cs) then new ++ replaceChars old new (old.length - 1) cs
    else c :: replaceChars old new 0 cs

/-- Go `strings.ReplaceAll` (for a non-empty `old`). -/
def ReplaceAll (s old new : String) : String :=
  ⟨replaceChars old.data new.data 0 s.data⟩

end strings

/-! ## Paths (`path/filepath`) -/

/-- A path: its components below the filesystem root. -/
abbrev Path := List String

namespace filepath

/-- Split a character list at every `/`. -/
def splitChars : List Char → List (List Char)
  | [] => [[]]
  | c :: cs =>
    if c = '/' then [] :: splitChars cs
    else
      match splitChars cs with
      | [] => [[c]]
      | w :: ws => (c :: w) :: ws

/-- The components of a path string, empty components included. -/
def splitSep (s : String) : List String :=
  (splitChars s.data).map String.mk

/-- One step of `filepath.Clean`: an empty or `.` element is dropped, `..` removes the
element before it (and is dropped at the root), any other element is kept. -/
def cleanStep (stack : Path) (c : String) : Path :=
  if c = "" ∨ c = "." then stack
  else if c = ".." then stack.dropLast
  else stack ++ [c]

/-- Go `filepath.Clean` on a rooted component list. -/
def Clean (p : List String) : Path :=
  p.foldl cleanStep []

/-- Go `filepath.Join(base, elem...)`: the elements are joined with `/` and the result
is cleaned. -/
def Join (base : Path) (elem : List String) : Path :=
  Clean (base ++ elem.flatMap splitSep)

/-- Go `filepath.Dir`. -/
def Dir (p : Path) : Path :=
  p.dropLast

/-- The components of `filepath.Rel(base, targ)`: the common leading components are
dropped and every remaining component of `base` becomes `..`. -/
def relComponents : Path → Path → List String
  | [], ts => ts
  | b :: bs, [] => List.replicate (b :: bs).length ".."
  | b :: bs, t :: ts =>
    if b = t then relComponents bs ts
    else List.replicate (b :: bs).length ".." ++ (t :: ts)

/-- The characters of the components joined by `/`. -/
def joinChars : List String → List Char
  | [] => []
  | [c] => c.data
  | c :: d :: rest => c.data ++ '/' :: joinChars (d :: rest)

/-- The components joined by `/`. -/
def joinSep (cs : List String) : String :=
  ⟨joinChars cs⟩

/-- Go `filepath.Rel(base, targ)` as a string; `.` when both are the same path. -/
def Rel (base targ : Path) : String :=
  match relComponents base targ with
  | [] => "."
  | c :: cs => joinSep (c :: cs)

/-- Go `filepath.ToSlash`; the identity where the separator is `/`. -/
def ToSlash (s : String) : String :=
  s

/-- The string form of a rooted path. -/
def render (p : Path) : String :=
  "/" ++ joinSep p

end filepath

/-! ## The filesystem tree -/

/-- A filesystem object: a regular file with its content, or a directory with its
entries in listing order. -/
inductive Node where
  | file (content : String)
  | dir (entries : List (String × Node))

namespace FS

/-- The first entry called `name`. -/
def find (es : List (String × Node)) (name : String) : Option Node :=
  match es with
  | [] => none
  | (k, v) :: rest => if k = name then some v else find rest name

/-- Replace the first entry called `name`, or add one at the end. -/
def setEntry (es : List (String × Node)) (name : String) (n : Node) : List (String × Node) :=
  match es with
  | [] => [(name, n)]
  | (k, v) :: rest => if k = name then (k, n) :: rest else (k, v) :: setEntry rest name n

/-- Drop every entry called `name`. -/
def dropEntry (es : List (String × Node)) (name : String) : List (String × Node) :=
  match es with
  | [] => []
  | (k, v) :: rest => if k = name then dropEntry rest name else (k, v) :: dropEntry rest name

/-- Apply `g` to every entry called `name`. -/
def mapEntry (es : List (String × Node)) (name : String) (g : Node → Node) :
    List (String × Node) :=
  match es with
  | [] => []
  | (k, v) :: rest =>
    if k = name then (k, g v) :: mapEntry rest name g else (k, v) :: mapEntry rest name g

/-- The object at a path, if any. -/
def lookup : Node → Path → Option Node
  | n, [] => some n
  | .file _, _ :: _ => none
  | .dir es, c :: p =>
    match find es c with
    | none => none
    | some child => lookup child p

/-- Remove the object at a path together with everything below it. -/
def remove : Node → Path → Node
  | n, [] => n
  | .file s, _ :: _ => .file s
  | .dir es, [c] => .dir (dropEntry es c)
  | .dir es, c :: d :: p => .dir (mapEntry es c (fun child => remove child (d :: p)))

/-- Place an object at a path whose parent is an existing directory. -/
def put : Node → Path → Node → Option Node
  | _, [], _ => none
  | .file _, _ :: _, _ => none
  | .dir es, [c], n => some (.dir (setEntry es c n))
  | .dir es, c :: d :: p, n =>
    match find es c with
    | none => none
    | some child =>
      match put child (d :: p) n with
      | none => none
      | some child' => some (.dir (setEntry es c child'))

/-- Create a directory and all missing parents; fails when a component is a file. -/
def mkdirAll : Node → Path → Option Node
  | .file _, _ => none
  | .dir es, [] => some (.dir es)
  | .dir es, c :: p =>
    match find es c with
    | none =>
      match mkdirAll (.dir []) p with
      | none => none
      | some child => some (.dir (setEntry es c child))
    | some old =>
      match mkdirAll old p with
      | none => none
      | some child => some (.dir (setEntry es c child))

end FS

/-! ## Wire and summary models (`internal/models`) -/

/-- Go `float64`: the handlers only copy these values and default them to zero, so
they are carried as rationals. -/
abbrev float64 := ℚ

namespace models

structure ApiAnalyzeRequest where
  URLs : List String
  deriving DecidableEq

structure ErrorResponse where
  Error : String
  Details : Option String
  deriving DecidableEq

structure AnalyzeResponse where
  Ttfb : float64
  FullyLoaded : float64
  LargestContentfulPaint : float64
  FirstContentfulPaint : float64
  CumulativeLayoutShift : float64
  TransferSize : float64
  deriving DecidableEq

structure Metric where
  Median : float64
  deriving DecidableEq

structure Timings where
  FullyLoaded : Option Metric
  deriving DecidableEq

structure GoogleWebVitals where
  Ttfb : Option Metric
  LargestContentfulPaint : Option Metric
  FirstContentfulPaint : Option Metric
  CumulativeLayoutShift : Option Metric
  TotalBlockingTime : Option Metric
  deriving DecidableEq

structure BrowserTime where
  Timings : Option models.Timings
  GoogleWebVitals : Option models.GoogleWebVitals
  deriving DecidableEq

structure PageXray where
  TransferSize : Option Metric
  deriving DecidableEq

end models

/-! ## Environment, world and events -/

/-- An operation on the filesystem, the object store, a zip archive or a subprocess. -/
inductive Op where
  | RemoveAll (p : Path)
  | MkdirAll (p : Path)
  | Remove (p : Path)
  | Stat (p : Path)
  | Lstat (p : Path)
  | ReadDir (p : Path)
  | Open (p : Path)
  | Create (p : Path)
  | Copy (p : Path)
  | Walk (p : Path)
  | FileInfoHeader (p : Path)
  | CreateHeader (name : String)
  | OpenReader (p : Path)
  | OpenEntry (name : String)
  | Run (args : List String)
  | GetObject (key : String)
  | PutObject (key : String)
  | DeleteObject (key : String)
  deriving DecidableEq

/-- Errors. `fault` is a failure imposed by the environment. -/
inductive Err where
  | notExist
  | notDir
  | isDir
  | notEmpty
  | noSuchKey
  | invalidZip
  | fault
  deriving DecidableEq

/-- Go `err.Error()`. -/
def Err.Error : Err → String
  | .notExist => "no such file or directory"
  | .notDir => "not a directory"
  | .isDir => "is a directory"
  | .notEmpty => "directory not empty"
  | .noSuchKey => "NoSuchKey"
  | .invalidZip => "zip: not a valid zip file"
  | .fault => "input/output error"

/-- An entry of a zip archive (`zip.File`): its name and its uncompressed content. -/
structure ZipFile where
  Name : String
  content : String
  deriving DecidableEq

/-- What the external tool leaves behind. -/
structure RunResult where
  ok : Bool
  stderr : String
  fs : Node

/-- The environment of a request. -/
structure Env where
  /-- The value of `os.TempDir()`. -/
  TempDir : Path
  /-- The process environment, `os.Getenv`. -/
  Getenv : String → String
  /-- Whether the environment makes an operation fail. -/
  fails : Op → Bool
  /-- The number of bytes a failing copy transfers before it stops. -/
  copied : Op → Nat
  /-- The subprocess `exec.Command("node", args...).Run()` as a filesystem transformer. -/
  run : List String → Node → RunResult
  /-- The part of `net/url`'s parser after its first three checks. -/
  parseTail : String → Bool
  /-- Decoding of `browsertime.summary-total.json`; `none` is a decode error. -/
  decodeBrowserTime : String → Option models.BrowserTime
  /-- The value left in the target struct by decoding `pagexray.summary-total.json`. -/
  decodePageXray : String → models.PageXray
  /-- The bytes of a zip archive with the given entries. -/
  zipEncode : List ZipFile → String
  /-- The entries read back by `zip.OpenReader`; `none` when the bytes are not an archive. -/
  zipDecode : String → Option (List ZipFile)

/-- The mutable state: filesystem, object store, and the trace of operations with
their outcome (`true` for success). -/
structure World where
  fs : Node
  store : String → Option String
  log : List (Op × Bool)

/-- Append an event to the trace. -/
def World.record (w : World) (op : Op) (ok : Bool) : World :=
  { w with log := w.log ++ [(op, ok)] }

/-! ## Responses -/

inductive Body where
  | empty
  | text (s : String)
  | error (e : models.ErrorResponse)
  | analyze (r : models.AnalyzeResponse)
  | content (b : String)
  deriving DecidableEq

structure Response where
  status : Nat
  body : Body
  deriving DecidableEq

/-- Go `http.Error(w, msg, code)`. -/
def httpError (msg : String) (code : Nat) : Response :=
  ⟨code, .text msg⟩

/-- Go `http.NotFound(w, r)`. -/
def httpNotFound : Response :=
  ⟨404, .text "404 page not found"⟩

/-- The handler's `renderError`. -/
def renderError (msg : String) (details : Option String) (status : Nat) : Response :=
  ⟨status, .error ⟨msg, details⟩⟩

/-! ## Package `os` -/

namespace os

/-- Go `os.RemoveAll`: removing a path that does not exist is not an error. -/
def RemoveAll (env : Env) (w : World) (p : Path) : Option Err × World :=
  if env.fails (.RemoveAll p) then (some .fault, w.record (.RemoveAll p) false)
  else (none, { w.record (.RemoveAll p) true with fs := FS.remove w.fs p })

/-- Go `os.MkdirAll`. -/
def MkdirAll (env : Env) (w : World) (p : Path) : Option Err × World :=
  if env.fails (.MkdirAll p) then (some .fault, w.record (.MkdirAll p) false)
  else
    match FS.mkdirAll w.fs p with
    | none => (some .notDir, w.record (.MkdirAll p) false)
    | some fs => (none, { w.record (.MkdirAll p) true with fs := fs })

/-- Go `os.Remove`: removes a file or an empty directory. -/
def Remove (env : Env) (w : World) (p : Path) : Option Err × World :=
  if env.fails (.Remove p) then (some .fault, w.record (.Remove p) false)
  else
    match FS.lookup w.fs p with
    | none => (some .notExist, w.record (.Remove p) false)
    | some (.dir (_ :: _)) => (some .notEmpty, w.record (.Remove p) false)
    | some _ => (none, { w.record (.Remove p) true with fs := FS.remove w.fs p })

/-- Go `os.Stat`. -/
def Stat (env : Env) (w : World) (p : Path) : Except Err Node × World :=
  if env.fails (.Stat p) then (.error .fault, w.record (.Stat p) false)
  else
    match FS.lookup w.fs p with
    | none => (.error .notExist, w.record (.Stat p) false)
    | some n => (.ok n, w.record (.Stat p) true)

/-- Go `os.Open`. -/
def Open (env : Env) (w : World) (p : Path) : Except Err Node × World :=
  if env.fails (.Open p) then (.error .fault, w.record (.Open p) false)
  else
    match FS.lookup w.fs p with
    | none => (.error .notExist, w.record (.Open p) false)
    | some n => (.ok n, w.record (.Open p) true)

/-- Go `os.ReadDir`. -/
def ReadDir (env : Env) (w : World) (p : Path) : Except Err (List (String × Node)) × World :=
  if env.fails (.ReadDir p) then (.error .fault, w.record (.ReadDir p) false)
  else
    match FS.lookup w.fs p with
    | none => (.error .notExist, w.record (.ReadDir p) false)
    | some (.file _) => (.error .notDir, w.record (.ReadDir p) false)
    | some (.dir es) => (.ok es, w.record (.ReadDir p) true)

/-- Go `os.Create`: creates or truncates the file. -/
def Create (env : Env) (w : World) (p : Path) : Option Err × World :=
  if env.fails (.Create p) then (some .fault, w.record (.Create p) false)
  else
    match FS.lookup w.fs p with
    | some (.dir _) => (some .isDir, w.record (.Create p) false)
    | _ =>
      match FS.put w.fs p (.file "") with
      | none => (some .notExist, w.record (.Create p) false)
      | some fs => (none, { w.record (.Create p) true with fs := fs })

/-- The content of an open file becomes `content` (writes through an open handle). -/
def writeFile (w : World) (p : Path) (content : String) : World :=
  match FS.put w.fs p (.file content) with
  | none => w
  | some fs => { w with fs := fs }

end os

/-- Go `os.FileInfo.IsDir`. -/
def Node.IsDir : Node → Bool
  | .file _ => false
  | .dir _ => true

/-- The first `n` bytes of a content. -/
def takeBytes (n : Nat) (s : String) : String :=
  ⟨s.data.take n⟩

/-! ## Package `os/exec` -/

namespace exec

/-- Go `cmd.Run()` with standard error captured: `some stderr` when the command fails. -/
def Run (env : Env) (w : World) (args : List String) : Option String × World :=
  match env.run args w.fs with
  | r => (if r.ok then none else some r.stderr, { w.record (.Run args) r.ok with fs := r.fs })

end exec

/-! ## Package `net/url` -/

namespace url

/-- Go `stringContainsCTLByte`. -/
def stringContainsCTLByte (s : String) : Bool :=
  s.data.any (fun c => c.toNat < 32 || c.toNat = 127)

/-- Go `url.ParseRequestURI`, `true` when it returns no error.  The first checks of
`net/url`'s `parse` are spelled out; the rest of the parser is `parseTail`. -/
def ParseRequestURI (parseTail : String → Bool) (rawURL : String) : Bool :=
  if stringContainsCTLByte rawURL then false
  else if rawURL = "" then false
  else if rawURL = "*" then true
  else parseTail rawURL

/-- Whether a string starts with a URI scheme followed by `:` (RFC 3986,
`scheme = ALPHA *( ALPHA / DIGIT / "+" / "-" / "." )`), which every absolute URL does. -/
def hasScheme (s : String) : Bool :=
  match s.data with
  | [] => false
  | c :: cs =>
    c.isAlpha &&
      (match cs.dropWhile (fun d => d.isAlphanum || d = '+' || d = '-' || d = '.') with
       | [] => false
       | d :: _ => d = ':')

end url

/-! ## Package `storage` (`internal/storage/storage.go`) -/

namespace storage

/-- The S3 call `client.GetObject`: a missing key is `noSuchKey`, every other failure
comes from the environment. -/
def GetObject (env : Env) (w : World) (key : String) : Except Err String × World :=
  if env.fails (.GetObject key) then (.error .fault, w.record (.GetObject key) false)
  else
    match w.store key with
    | none => (.error .noSuchKey, w.record (.GetObject key) false)
    | some body => (.ok body, w.record (.GetObject key) true)

/-- `Service.UploadStream`: `client.PutObject` with the stream as body. -/
def UploadStream (env : Env) (w : World) (key : String) (stream : Node) : Option Err × World :=
  if env.fails (.PutObject key) then (some .fault, w.record (.PutObject key) false)
  else
    match stream with
    | .dir _ => (some .isDir, w.record (.PutObject key) false)
    | .file content =>
      (none, { w.record (.PutObject key) true with
                 store := fun k => if k = key then some content else w.store k })

/-- `Service.UploadFile`. -/
def UploadFile (env : Env) (w : World) (key : String) (filePath : Path) : Option Err × World :=
  match os.Open env w filePath with
  | (.error err, w) => (some err, w)
  | (.ok file, w) => UploadStream env w key file

/-- `Service.DownloadFile`: get the object, create the destination, copy the body. -/
def DownloadFile (env : Env) (w : World) (key : String) (destinationPath : Path) :
    Option Err × World :=
  match GetObject env w key with
  | (.error err, w) => (some err, w)
  | (.ok body, w) =>
    match os.Create env w destinationPath with
    | (some err, w) => (some err, w)
    | (none, w) =>
      if env.fails (.Copy destinationPath) then
        (some .fault,
          os.writeFile (w.record (.Copy destinationPath) false) destinationPath
            (takeBytes (env.copied (.Copy destinationPath)) body))
      else
        (none, os.writeFile (w.record (.Copy destinationPath) true) destinationPath body)

/-- `Service.DeleteFile`: deleting a missing key is not an error. -/
def DeleteFile (env : Env) (w : World) (key : String) : Option Err × World :=
  if env.fails (.DeleteObject key) then (some .fault, w.record (.DeleteObject key) false)
  else
    (none, { w.record (.DeleteObject key) true with
               store := fun k => if k = key then none else w.store k })

/-- `Service.GetFile`: the body of the object (its metadata is not modelled). -/
def GetFile (env : Env) (w : World) (key : String) : Except Err String × World :=
  GetObject env w key

end storage

/-! ## Package `utils` (`internal/utils/zip.go`) and `filepath.Walk` -/

namespace filepath

mutual
/-- Go `filepath.walk`: visit an object, then the entries of a directory. -/
def walk {σ : Type} (env : Env) (fn : σ → Path → Option Node → Option Err → σ × Option Err)
    (path : Path) : Node → σ → σ × Option Err
  | .file content, s => fn s path (some (.file content)) none
  | .dir es, s =>
    match (if env.fails (.ReadDir path) then some Err.fault else none) with
    | err =>
      match fn s path (some (.dir es)) err with
      | (s1, err1) =>
        if err.isSome || err1.isSome then (s1, err1)
        else walkEntries env fn path es s1
/-- The loop of `filepath.walk` over the names of a directory. -/
def walkEntries {σ : Type} (env : Env)
    (fn : σ → Path → Option Node → Option Err → σ × Option Err)
    (path : Path) : List (String × Node) → σ → σ × Option Err
  | [], s => (s, none)
  | (name, child) :: rest, s =>
    if env.fails (.Lstat (path ++ [name])) then
      match fn s (path ++ [name]) none (some Err.fault) with
      | (s1, some err) => (s1, some err)
      | (s1, none) => walkEntries env fn path rest s1
    else
      match walk env fn (path ++ [name]) child s with
      | (s1, some err) => (s1, some err)
      | (s1, none) => walkEntries env fn path rest s1
end

/-- Go `filepath.Walk` (the callbacks here never return `SkipDir`). -/
def Walk {σ : Type} (env : Env) (fs : Node) (root : Path)
    (fn : σ → Path → Option Node → Option Err → σ × Option Err) (s : σ) : σ × Option Err :=
  if env.fails (.Lstat root) then fn s root none (some .fault)
  else
    match FS.lookup fs root with
    | none => fn s root none (some .notExist)
    | some info => walk env fn root info s

end filepath

namespace utils

/-- The callback that `ZipDirectory` passes to `filepath.Walk`; the state is the list
of entries written to the archive so far.  `Walk` passes no `info` only together with an
error, so the second case does not arise. -/
def zipWalkFn (env : Env) (source : Path) (archive : List ZipFile) (path : Path)
    (info : Option Node) (err : Option Err) : List ZipFile × Option Err :=
  match err, info with
  | some err, _ => (archive, some err)
  | none, none => (archive, some .fault)
  | none, some info =>
    if env.fails (.FileInfoHeader path) then (archive, some .fault)
    else
      let relPath := filepath.Rel source path
      let name := filepath.ToSlash relPath
      let name := if info.IsDir then name ++ "/" else name
      if name = "./" ∨ name = "." then (archive, none)
      else if env.fails (.CreateHeader name) then (archive, some .fault)
      else
        match info with
        | .dir _ => (archive ++ [⟨name, ""⟩], none)
        | .file content =>
          if env.fails (.Open path) then (archive ++ [⟨name, ""⟩], some .fault)
          else if env.fails (.Copy path) then
            (archive ++ [⟨name, takeBytes (env.copied (.Copy path)) content⟩], some .fault)
          else (archive ++ [⟨name, content⟩], none)

/-- The entries that the walk of `ZipDirectory` writes, with the error the walk ends in. -/
def zipWalk (env : Env) (fs : Node) (source : Path) : List ZipFile × Option Err :=
  filepath.Walk env fs source (zipWalkFn env source) []

/-- `utils.ZipDirectory`.  The value returned at the end is the `err` of `os.Create`;
the result of `filepath.Walk` is not assigned to anything.  The deferred
`archive.Close()` and `zipfile.Close()` leave the entries written so far in the target. -/
def ZipDirectory (env : Env) (w : World) (source target : Path) : Option Err × World :=
  match os.Create env w target with
  | (some err, w) => (some err, w)
  | (none, w) =>
    let err : Option Err := none
    let walked := zipWalk env w.fs source
    let w := os.writeFile (w.record (.Walk source) walked.2.isNone) target
      (env.zipEncode walked.1)
    (err, w)

end utils

/-! ## Package `handler` (`internal/handler/handler.go`) -/

namespace handler

/-- The identifier guard that opens every handler:
`id == "" || strings.Contains(id, "..") || strings.Contains(id, "/") || strings.Contains(id, "\\")`. -/
def invalidID (id : String) : Bool :=
  id = "" || strings.Contains id ".." || strings.Contains id "/" || strings.Contains id "\\"

/-- The loop "find the first directory in pages" of `HandleAnalyze`. -/
def firstPage : List (String × Node) → String
  | [] => ""
  | (name, p) :: rest => if p.IsDir then name else firstPage rest

/-- The content that a decoder reads from an open file; reading a directory fails. -/
def fileContent : Node → Option String
  | .file content => some content
  | .dir _ => none

/-- The response assembled at the end of `HandleAnalyze` (handler.go 184-204). -/
def buildResponse (browsertimeData : models.BrowserTime) (pagexrayData : models.PageXray) :
    models.AnalyzeResponse :=
  let resp : models.AnalyzeResponse := ⟨0, 0, 0, 0, 0, 0⟩
  let resp :=
    match browsertimeData.GoogleWebVitals with
    | none => resp
    | some vitals =>
      let resp := match vitals.Ttfb with
        | none => resp
        | some m => { resp with Ttfb := m.Median }
      let resp := match vitals.LargestContentfulPaint with
        | none => resp
        | some m => { resp with LargestContentfulPaint := m.Median }
      let resp := match vitals.FirstContentfulPaint with
        | none => resp
        | some m => { resp with FirstContentfulPaint := m.Median }
      match vitals.CumulativeLayoutShift with
      | none => resp
      | some m => { resp with CumulativeLayoutShift := m.Median }
  let resp :=
    match browsertimeData.Timings with
    | none => resp
    | some timings =>
      match timings.FullyLoaded with
      | none => resp
      | some m => { resp with FullyLoaded := m.Median }
  match pagexrayData.TransferSize with
  | none => resp
  | some m => { resp with TransferSize := m.Median }

/-- `HandleAnalyze` after `defer os.Remove(zipPath)` (handler.go 175-207): upload the
zip, drop the cache entry, answer with the metrics. -/
def analyzeUpload (env : Env) (w : World) (id : String) (tempPath zipPath : Path)
    (browsertimeData : models.BrowserTime) (pagexrayData : models.PageXray) :
    Response × World :=
  match storage.UploadFile env w ("results/" ++ id ++ "/result.zip") zipPath with
  | (some err, w) => (renderError "Failed to upload zip" (some err.Error) 500, w)
  | (none, w) =>
    let cacheZipPath := filepath.Join tempPath ["sitespeed-cache", id ++ ".zip"]
    match os.Remove env w cacheZipPath with
    | (_, w) => (⟨200, .analyze (buildResponse browsertimeData pagexrayData)⟩, w)

/-- The optional transfer-size summary (handler.go 151-155): the zero value when the
file cannot be opened, otherwise what decoding leaves in the struct. -/
def readPageXray (env : Env) (w : World) (pagexrayDataPath : Path) :
    models.PageXray × World :=
  match os.Open env w pagexrayDataPath with
  | (.ok pagexrayFile, w) =>
    ((match fileContent pagexrayFile with
      | some content => env.decodePageXray content
      | none => (⟨none⟩ : models.PageXray)), w)
  | (.error _, w) => ((⟨none⟩ : models.PageXray), w)

/-- The screenshot upload (handler.go 160-164): only if `os.Stat` finds the file, and an
upload error is only logged. -/
def uploadScreenshot (env : Env) (w : World) (s3ScreenshotPath : String)
    (screenshotPath : Path) : World :=
  match os.Stat env w screenshotPath with
  | (.ok _, w) => (storage.UploadFile env w s3ScreenshotPath screenshotPath).2
  | (.error _, w) => w

/-- `HandleAnalyze` after `defer os.RemoveAll(resultDir)` (handler.go 83-173): run the
tool, read the summaries, upload the screenshot, pack the workspace. -/
def analyzeWorkspace (env : Env) (w : World) (id : String) (req : models.ApiAnalyzeRequest)
    (tempPath resultDir : Path) : Response × World :=
  let sitespeedBin :=
    if env.Getenv "SITESPEED_BIN" = "" then "sitespeed.io" else env.Getenv "SITESPEED_BIN"
  let args := [sitespeedBin, "--outputFolder", filepath.render resultDir,
    "--plugins.add", "analysisstorer", "--visualMetrics", "--video",
    "--viewPort", "1920x1080", "--browsertime.chrome.cleanUserDataDir=true",
    "--browsertime.iterations", "1"] ++ req.URLs
  match exec.Run env w ("node" :: args) with
  | (some stderr, w) =>
    (renderError "Failed to run sitespeed analysis" (some stderr) 500, w)
  | (none, w) =>
    let pagesDir := filepath.Join resultDir ["pages"]
    match os.ReadDir env w pagesDir with
    | (.error _, w) => (renderError "Web vital data not found" none 500, w)
    | (.ok pages, w) =>
      if pages.length = 0 then (renderError "Web vital data not found" none 500, w)
      else if firstPage pages = "" then (renderError "Web vital data not found" none 500, w)
      else
        let webvitalDataPath :=
          filepath.Join resultDir ["data", "browsertime.summary-total.json"]
        let pagexrayDataPath :=
          filepath.Join resultDir ["data", "pagexray.summary-total.json"]
        match os.Open env w webvitalDataPath with
        | (.error _, w) => (renderError "Web vital data not found" none 500, w)
        | (.ok browsertimeFile, w) =>
          match (fileContent browsertimeFile).bind env.decodeBrowserTime with
          | none => (renderError "Failed to parse web vital data" none 500, w)
          | some browsertimeData =>
            match readPageXray env w pagexrayDataPath with
            | (pagexrayData, w) =>
              let screenshotPath := filepath.Join resultDir
                ["pages", firstPage pages, "data", "screenshots", "1",
                  "afterPageCompleteCheck.png"]
              let s3ScreenshotPath := "results/" ++ id ++ "/screenshot.png"
              match uploadScreenshot env w s3ScreenshotPath screenshotPath with
              | w =>
                let zipPath := filepath.Join tempPath [id ++ ".zip"]
                match os.Remove env w zipPath with
                | (_, w) =>
                  match utils.ZipDirectory env w resultDir zipPath with
                  | (some err, w) =>
                    (renderError "Failed to create zip" (some err.Error) 500, w)
                  | (none, w) =>
                    match analyzeUpload env w id tempPath zipPath browsertimeData
                        pagexrayData with
                    | (resp, w) => (resp, (os.Remove env w zipPath).2)

/-- `HandleAnalyze`; `body` is the decoded request body, `none` when decoding fails. -/
def HandleAnalyze (env : Env) (w : World) (id : String)
    (body : Option models.ApiAnalyzeRequest) : Response × World :=
  if invalidID id then (httpError "Invalid ID" 400, w)
  else
    match body with
    | none => (httpError "Invalid Request Body" 400, w)
    | some req =>
      if req.URLs.length = 0 ∨ req.URLs.length > 5 then
        (renderError "URLs must be between 1 and 5 items" none 400, w)
      else
        match req.URLs.find? (fun u => !url.ParseRequestURI env.parseTail u) with
        | some u => (renderError ("Invalid URL: " ++ u) none 400, w)
        | none =>
          let tempPath := env.TempDir
          let resultDir := filepath.Join tempPath ["sitespeed", id]
          match os.RemoveAll env w resultDir with
          | (_, w) =>
            match os.MkdirAll env w resultDir with
            | (some _, w) => (renderError "Failed to create directory" none 500, w)
            | (none, w) =>
              match analyzeWorkspace env w id req tempPath resultDir with
              | (resp, w) => (resp, (os.RemoveAll env w resultDir).2)

/-- The first entry with the given name: the loop
`for _, f := range archive.File { if f.Name == path { file = f; break } }`. -/
def firstNamed : List ZipFile → String → Option ZipFile
  | [], _ => none
  | f :: rest, name => if f.Name = name then some f else firstNamed rest name

/-- The path resolution of `HandleGetResult` (handler.go 234-237 and 246-263). -/
def resolve (files : List ZipFile) (path : String) : Option ZipFile :=
  let path := if path = "" then "index.html" else path
  let path := strings.ReplaceAll path "\\" "/"
  match firstNamed files path with
  | some file => some file
  | none =>
    if !strings.HasSuffix path "/" then firstNamed files (path ++ "/index.html")
    else none

/-- Go `zip.OpenReader`. -/
def OpenReader (env : Env) (w : World) (p : Path) : Except Err (List ZipFile) × World :=
  if env.fails (.OpenReader p) then (.error .fault, w.record (.OpenReader p) false)
  else
    match FS.lookup w.fs p with
    | none => (.error .notExist, w.record (.OpenReader p) false)
    | some (.dir _) => (.error .isDir, w.record (.OpenReader p) false)
    | some (.file content) =>
      match env.zipDecode content with
      | none => (.error .invalidZip, w.record (.OpenReader p) false)
      | some files => (.ok files, w.record (.OpenReader p) true)

/-- `HandleGetResult` from the path defaulting on (handler.go 234-286). -/
def serveEntry (env : Env) (w : World) (zipPath : Path) (path : String) : Response × World :=
  match OpenReader env w zipPath with
  | (.error _, w) => (httpNotFound, w)
  | (.ok files, w) =>
    match resolve files path with
    | none => (httpNotFound, w)
    | some file =>
      if env.fails (.OpenEntry file.Name) then
        (httpError "Failed to open file" 500, w.record (.OpenEntry file.Name) false)
      else (⟨200, .content file.content⟩, w.record (.OpenEntry file.Name) true)

/-- `HandleGetResult`. -/
def HandleGetResult (env : Env) (w : World) (id path : String) : Response × World :=
  if invalidID id then (httpError "Invalid ID" 400, w)
  else
    let tempPath := env.TempDir
    let zipPath := filepath.Join tempPath ["sitespeed-cache", id ++ ".zip"]
    match os.Stat env w zipPath with
    | (.error .notExist, w) =>
      match os.MkdirAll env w (filepath.Dir zipPath) with
      | (some _, w) => (httpError "Internal Server Error" 500, w)
      | (none, w) =>
        match storage.DownloadFile env w ("results/" ++ id ++ "/result.zip") zipPath with
        | (some _, w) => (httpNotFound, w)
        | (none, w) => serveEntry env w zipPath path
    | (_, w) => serveEntry env w zipPath path

/-- `HandleDeleteResult`. -/
def HandleDeleteResult (env : Env) (w : World) (id : String) : Response × World :=
  if invalidID id then (httpError "Invalid ID" 400, w)
  else
    match storage.DeleteFile env w ("results/" ++ id ++ "/result.zip") with
    | (_, w) =>
      match storage.DeleteFile env w ("results/" ++ id ++ "/screenshot.png") with
      | (_, w) =>
        let tempPath := env.TempDir
        let zipPath := filepath.Join tempPath ["sitespeed-cache", id ++ ".zip"]
        match os.Remove env w zipPath with
        | (_, w) => (⟨200, .empty⟩, w)

/-- `HandleGetScreenshot`. -/
def HandleGetScreenshot (env : Env) (w : World) (id : String) : Response × World :=
  if invalidID id then (httpError "Invalid ID" 400, w)
  else
    match storage.GetFile env w ("results/" ++ id ++ "/screenshot.png") with
    | (.error _, w) => (httpNotFound, w)
    | (.ok stream, w) => (⟨200, .content stream⟩, w)

end handler

/-! ## Concrete environments and worlds -/

namespace Examples

/-- An environment in which nothing fails and the tool writes nothing. -/
def quietEnv : Env where
  TempDir := ["tmp"]
  Getenv := fun _ => ""
  fails := fun _ => false
  copied := fun _ => 0
  run := fun _ fs => ⟨true, "", fs⟩
  parseTail := fun _ => false
  decodeBrowserTime := fun _ => none
  decodePageXray := fun _ => ⟨none⟩
  zipEncode := fun _ => ""
  zipDecode := fun _ => none

/-- An empty filesystem, an empty store, an empty trace. -/
def emptyWorld : World :=
  ⟨.dir [], fun _ => none, []⟩

end Examples

namespace Examples

/-- As `quietEnv`, with a URL parser that accepts every entry. -/
def lenientEnv : Env :=
  { quietEnv with parseTail := fun _ => true }

/-- A world in which the job `abc` has a workspace holding a report. -/
def otherJobWorld : World :=
  ⟨.dir [("tmp", .dir [("sitespeed", .dir [("abc", .dir [("report.html", .file "report")])])])],
    fun _ => none, []⟩

/-- The tree that the tool leaves in the workspace in the example runs. -/
def toolOutput : Node :=
  .dir [("data", .dir [("browsertime.summary-total.json", .file "ttfb-120.5")]),
    ("index.html", .file "<html>"),
    ("pages", .dir [("example_com", .dir [])])]

/-- An environment in which the tool writes `toolOutput` into the workspace of `abc`,
the timing summary decodes to `ttfb.median = 120.5`, there is no transfer-size summary,
and an archive is encoded as the list of its entry names. -/
def toolEnv : Env where
  TempDir := ["tmp"]
  Getenv := fun _ => ""
  fails := fun _ => false
  copied := fun _ => 0
  run := fun _ fs =>
    match FS.put fs ["tmp", "sitespeed", "abc"] toolOutput with
    | some fs' => ⟨true, "", fs'⟩
    | none => ⟨false, "cannot write", fs⟩
  parseTail := fun _ => true
  decodeBrowserTime := fun s =>
    if s = "ttfb-120.5" then some ⟨none, some ⟨some ⟨120.5⟩, none, none, none, none⟩⟩
    else none
  decodePageXray := fun _ => ⟨none⟩
  zipEncode := fun files => String.join (files.map (fun f => f.Name ++ ";"))
  zipDecode := fun _ => none

/-- As `toolEnv`, but `index.html` in the workspace cannot be opened. -/
def unreadableEnv : Env :=
  { toolEnv with
    fails := fun op => decide (op = Op.Open ["tmp", "sitespeed", "abc", "index.html"]) }

/-- The world when the tool has finished in the workspace of `abc`. -/
def afterTool : World :=
  ⟨.dir [("tmp", .dir [("sitespeed", .dir [("abc", toolOutput)])])], fun _ => none, []⟩

end Examples

/-! ## Specification-side readings -/

/-- The path resolution as the specification words it: an empty path becomes
`index.html`, backslashes become slashes; the first entry whose name equals the path is
returned; if there is none and the path does not end in a slash, the first entry whose
name equals the path followed by `/index.html`; otherwise nothing. -/
def resolveSpec (files : List ZipFile) (path : String) : Option ZipFile :=
  let p := strings.ReplaceAll (if path = "" then "index.html" else path) "\\" "/"
  match files.find? (fun f => f.Name = p) with
  | some f => some f
  | none =>
    if strings.HasSuffix p "/" then none
    else files.find? (fun f => f.Name = p ++ "/index.html")

/-- The median of a metric, zero when the metric is absent. -/
def medianOrZero : Option models.Metric → float64
  | none => 0
  | some m => m.Median

namespace Examples

/-- A world whose store holds the archive and the screenshot of job `abc`. -/
def storedWorld : World :=
  ⟨.dir [("tmp", .dir [])],
    fun k =>
      if k = "results/abc/result.zip" then some "PK-archive"
      else if k = "results/abc/screenshot.png" then some "PNG"
      else none,
    []⟩

/-- As `quietEnv`, but the store cannot be reached: every `GetObject` for job `abc`
fails for a reason other than a missing key. -/
def storeDownEnv : Env :=
  { quietEnv with
    fails := fun op =>
      decide (op = Op.GetObject "results/abc/result.zip") ||
        decide (op = Op.GetObject "results/abc/screenshot.png") }

/-- As `quietEnv`, but the copy into the cache file of `abc` stops after two bytes. -/
def brokenCopyEnv : Env :=
  { quietEnv with
    fails := fun op => decide (op = Op.Copy ["tmp", "sitespeed-cache", "abc.zip"])
    copied := fun _ => 2 }

end Examples

/-! ## Well-formed directory trees and the entries of a packed tree -/

/-- A name that a directory listing can hold: not empty, not `.` or `..`, without `/`. -/
def validName (n : String) : Bool :=
  decide (n ≠ "") && decide (n ≠ ".") && decide (n ≠ "..") && !n.data.contains '/'

mutual
/-- A tree as a filesystem holds it: valid names, no two entries of a directory with
the same name. -/
def Node.wellFormed : Node → Bool
  | .file _ => true
  | .dir es => wellFormedEntries es
/-- The entries of a well-formed directory. -/
def wellFormedEntries : List (String × Node) → Bool
  | [] => true
  | (n, child) :: rest =>
    validName n && (FS.find rest n).isNone && child.wellFormed && wellFormedEntries rest
end

mutual
/-- The archive entries of the object at the relative path `rel` when nothing fails:
a file gives one entry, a directory gives its own entry (name with a trailing slash)
followed by the entries of its content; the root itself gives no entry. -/
def packNode (rel : List String) : Node → List ZipFile
  | .file content => if rel = [] then [] else [⟨filepath.joinSep rel, content⟩]
  | .dir es =>
    (if rel = [] then [] else [⟨filepath.joinSep rel ++ "/", ""⟩]) ++ packEntries rel es
/-- The archive entries of the entries of a directory. -/
def packEntries (rel : List String) : List (String × Node) → List ZipFile
  | [] => []
  | (n, child) :: rest => packNode (rel ++ [n]) child ++ packEntries rel rest
end

namespace Examples

/-- A workspace with one file whose name contains a backslash. -/
def backslashWorld : World :=
  ⟨.dir [("tmp", .dir [("sitespeed", .dir [("abc", .dir [("a\\b", .file "x")])])])],
    fun _ => none, []⟩

end Examples

/-! ## Several read requests for one identifier -/

/-- The number of `GetObject` calls for a key in a trace, whatever their outcome. -/
def downloads (key : String) (log : List (Op × Bool)) : Nat :=
  (log.filter (fun e => decide (e.1 = Op.GetObject key))).length

/-- Requests for one identifier served one after another, each to its end before the
next starts; the world when the last has returned. -/
def serveSequentially (env : Env) (w : World) (id : String) : List String → World
  | [] => w
  | path :: rest => serveSequentially env (handler.HandleGetResult env w id path).2 id rest

/-- `HandleGetResult` from the test of the `os.Stat` result on (handler.go 222-286), for
an identifier that passed the guard. -/
def afterStat (env : Env) (w : World) (id path : String) (stat : Except Err Node) :
    Response × World :=
  let zipPath := filepath.Join env.TempDir ["sitespeed-cache", id ++ ".zip"]
  match stat with
  | .error .notExist =>
    match os.MkdirAll env w (filepath.Dir zipPath) with
    | (some _, w) => (httpError "Internal Server Error" 500, w)
    | (none, w) =>
      match storage.DownloadFile env w ("results/" ++ id ++ "/result.zip") zipPath with
      | (some _, w) => (httpNotFound, w)
      | (none, w) => handler.serveEntry env w zipPath path
  | _ => handler.serveEntry env w zipPath path

/-- Two requests for one identifier that overlap: each runs its `os.Stat` before the
other has gone on, then the first runs to its end, then the second. -/
def serveOverlapping (env : Env) (w : World) (id pathA pathB : String) :
    (Response × Response) × World :=
  if handler.invalidID id then ((httpError "Invalid ID" 400, httpError "Invalid ID" 400), w)
  else
    let zipPath := filepath.Join env.TempDir ["sitespeed-cache", id ++ ".zip"]
    match os.Stat env w zipPath with
    | (statA, w) =>
      match os.Stat env w zipPath with
      | (statB, w) =>
        match afterStat env w id pathA statA with
        | (respA, w) =>
          match afterStat env w id pathB statB with
          | (respB, w) => ((respA, respB), w)

namespace Examples

/-- As `quietEnv`, with a codec that reads every cache file as an archive holding
`index.html`. -/
def archiveEnv : Env :=
  { quietEnv with zipDecode := fun _ => some [⟨"index.html", "<html>"⟩] }

end Examples

/-! # Theorems -/

open handler

/-! ## Lemmas on the filesystem tree -/

namespace FS

theorem find_dropEntry_self (es : List (String × Node)) (c : String) :
    find (dropEntry es c) c = none := by
  induction es with
  | nil => rfl
  | cons e rest ih =>
    obtain ⟨k, v⟩ := e
    by_cases hk : k = c
    · simp only [dropEntry, if_pos hk]; exact ih
    · simp only [dropEntry, if_neg hk, find]; exact ih

theorem find_dropEntry_other (es : List (String × Node)) (c c' : String) (h : c' ≠ c) :
    find (dropEntry es c) c' = find es c' := by
  induction es with
  | nil => rfl
  | cons e rest ih =>
    obtain ⟨k, v⟩ := e
    by_cases hk : k = c
    · have hk' : ¬ k = c' := by rw [hk]; exact fun h' => h h'.symm
      simp only [dropEntry, if_pos hk, find, if_neg hk']; exact ih
    · simp only [dropEntry, if_neg hk, find, ih]

theorem find_mapEntry_self (es : List (String × Node)) (c : String) (g : Node → Node) :
    find (mapEntry es c g) c = (find es c).map g := by
  induction es with
  | nil => rfl
  | cons e rest ih =>
    obtain ⟨k, v⟩ := e
    by_cases hk : k = c
    · simp only [mapEntry, if_pos hk, find, Option.map]
    · simp only [mapEntry, if_neg hk, find, ih]

theorem find_mapEntry_other (es : List (String × Node)) (c c' : String) (g : Node → Node)
    (h : c' ≠ c) :
    find (mapEntry es c g) c' = find es c' := by
  induction es with
  | nil => rfl
  | cons e rest ih =>
    obtain ⟨k, v⟩ := e
    by_cases hk : k = c
    · have hk' : ¬ k = c' := by rw [hk]; exact fun h' => h h'.symm
      simp only [mapEntry, if_pos hk, find, if_neg hk']; exact ih
    · simp only [mapEntry, if_neg hk, find, ih]

theorem find_setEntry_self (es : List (String × Node)) (c : String) (x : Node) :
    find (setEntry es c x) c = some x := by
  induction es with
  | nil => simp [setEntry, find]
  | cons e rest ih =>
    obtain ⟨k, v⟩ := e
    by_cases hk : k = c
    · simp [setEntry, find, hk]
    · simp [setEntry, find, hk, ih]

/-- Removing a non-root path leaves nothing at that path. -/
theorem lookup_remove_self (n : Node) (p : Path) (hp : p ≠ []) :
    lookup (remove n p) p = none := by
  induction p generalizing n with
  | nil => exact absurd rfl hp
  | cons c rest ih =>
    cases n with
    | file s => simp [remove, lookup]
    | dir es =>
      cases rest with
      | nil => simp [remove, lookup, find_dropEntry_self]
      | cons d p' =>
        simp only [remove, lookup, find_mapEntry_self]
        cases hf : find es c with
        | none => simp
        | some child => simpa using ih child (by simp)

/-- What a removal can do to the object found at another path: it disappears, it is
unchanged, or it is a directory that stays a directory. -/
theorem lookup_remove_cases (n : Node) (p q : Path) :
    lookup (remove n p) q = none ∨ lookup (remove n p) q = lookup n q ∨
      ∃ es es', lookup n q = some (.dir es) ∧ lookup (remove n p) q = some (.dir es') := by
  induction p generalizing n q with
  | nil => right; left; simp [remove]
  | cons c rest ih =>
    cases n with
    | file s => right; left; simp [remove]
    | dir es =>
      cases q with
      | nil =>
        right; right
        cases rest with
        | nil => exact ⟨es, dropEntry es c, by simp [lookup], by simp [remove, lookup]⟩
        | cons d p' =>
          exact ⟨es, mapEntry es c (fun child => remove child (d :: p')),
            by simp [lookup], by simp [remove, lookup]⟩
      | cons c' q' =>
        by_cases hc : c' = c
        · subst hc
          cases rest with
          | nil => left; simp [remove, lookup, find_dropEntry_self]
          | cons d p' =>
            simp only [remove, lookup, find_mapEntry_self]
            cases hf : find es c' with
            | none => left; simp
            | some child => simpa using ih child q'
        · right; left
          cases rest with
          | nil => simp [remove, lookup, find_dropEntry_other _ _ _ hc]
          | cons d p' => simp [remove, lookup, find_mapEntry_other _ _ _ _ hc]

theorem lookup_remove_none (n : Node) (p q : Path) (h : lookup n q = none) :
    lookup (remove n p) q = none := by
  rcases lookup_remove_cases n p q with h1 | h1 | ⟨es, es', h1, _⟩
  · exact h1
  · rw [h1, h]
  · rw [h] at h1; cases h1

theorem lookup_remove_file (n : Node) (p q : Path) (s : String)
    (h : lookup n q = some (.file s)) :
    lookup (remove n p) q = none ∨ lookup (remove n p) q = some (.file s) := by
  rcases lookup_remove_cases n p q with h1 | h1 | ⟨es, es', h1, _⟩
  · exact Or.inl h1
  · exact Or.inr (by rw [h1, h])
  · rw [h] at h1; cases h1

/-- A successful `put` leaves the object at the path. -/
theorem lookup_put_self (n n' : Node) (p : Path) (x : Node) (h : put n p x = some n') :
    lookup n' p = some x := by
  induction p generalizing n n' with
  | nil => cases n <;> simp [put] at h
  | cons c rest ih =>
    cases n with
    | file s => simp [put] at h
    | dir es =>
      cases rest with
      | nil =>
        simp only [put, Option.some.injEq] at h
        subst h
        simp [lookup, find_setEntry_self]
      | cons d p' =>
        simp only [put] at h
        cases hf : find es c with
        | none => simp [hf] at h
        | some child =>
          simp only [hf] at h
          cases hp : put child (d :: p') x with
          | none => simp [hp] at h
          | some child' =>
            simp only [hp, Option.some.injEq] at h
            subst h
            simp only [lookup, find_setEntry_self]
            exact ih child child' hp

theorem put_ne_nil (n n' : Node) (p : Path) (x : Node) (h : put n p x = some n') : p ≠ [] := by
  intro hp
  subst hp
  cases n <;> simp [put] at h

/-- After a successful `put`, a second `put` at the same path succeeds. -/
theorem put_put (n n' : Node) (p : Path) (x y : Node) (h : put n p x = some n') :
    ∃ n'', put n' p y = some n'' := by
  induction p generalizing n n' with
  | nil => cases n <;> simp [put] at h
  | cons c rest ih =>
    cases n with
    | file s => simp [put] at h
    | dir es =>
      cases rest with
      | nil =>
        simp only [put, Option.some.injEq] at h
        subst h
        exact ⟨.dir (setEntry (setEntry es c x) c y), by simp [put]⟩
      | cons d p' =>
        simp only [put] at h
        cases hf : find es c with
        | none => simp [hf] at h
        | some child =>
          simp only [hf] at h
          cases hp : put child (d :: p') x with
          | none => simp [hp] at h
          | some child' =>
            simp only [hp, Option.some.injEq] at h
            subst h
            obtain ⟨c2, hc2⟩ := ih child child' hp
            exact ⟨.dir (setEntry (setEntry es c child') c c2),
              by simp [put, find_setEntry_self, hc2]⟩

/-- Creating the parent directory of a path creates nothing at the path itself. -/
theorem lookup_mkdirAll_dropLast (n n' : Node) (p : Path)
    (hmk : mkdirAll n p.dropLast = some n') (h : lookup n p = none) :
    lookup n' p = none := by
  induction p generalizing n n' with
  | nil => simp [lookup] at h
  | cons c rest ih =>
    cases n with
    | file s => simp [mkdirAll] at hmk
    | dir es =>
      cases rest with
      | nil =>
        simp only [List.dropLast, mkdirAll, Option.some.injEq] at hmk
        subst hmk
        exact h
      | cons d p' =>
        simp only [List.dropLast, mkdirAll] at hmk
        simp only [lookup] at h
        cases hf : find es c with
        | none =>
          simp only [hf] at hmk
          cases hm : mkdirAll (.dir []) (List.dropLast (d :: p')) with
          | none => simp [hm] at hmk
          | some child =>
            simp only [hm, Option.some.injEq] at hmk
            subst hmk
            simp only [lookup, find_setEntry_self]
            exact ih (.dir []) child hm (by simp [lookup, find])
        | some old =>
          simp only [hf] at hmk h
          cases hm : mkdirAll old (List.dropLast (d :: p')) with
          | none => simp [hm] at hmk
          | some child =>
            simp only [hm, Option.some.injEq] at hmk
            subst hmk
            simp only [lookup, find_setEntry_self]
            exact ih old child hm h

end FS

/-! ## Identifier validation -/

/-- C1: an identifier containing `..`, `/` or `\` makes each of the four handlers answer
400 "Invalid ID" and return the world untouched: no event is appended to the trace, so
no filesystem, store or subprocess operation was performed. -/
theorem invalid_identifier_rejected (env : Env) (w : World) (id path : String)
    (body : Option models.ApiAnalyzeRequest)
    (h : strings.Contains id ".." = true ∨ strings.Contains id "/" = true ∨
      strings.Contains id "\\" = true) :
    HandleAnalyze env w id body = (⟨400, .text "Invalid ID"⟩, w) ∧
    HandleGetResult env w id path = (⟨400, .text "Invalid ID"⟩, w) ∧
    HandleDeleteResult env w id = (⟨400, .text "Invalid ID"⟩, w) ∧
    HandleGetScreenshot env w id = (⟨400, .text "Invalid ID"⟩, w) := by
  have hid : invalidID id = true := by
    unfold invalidID
    rcases h with h | h | h <;> simp [h]
  simp [HandleAnalyze, HandleGetResult, HandleDeleteResult, HandleGetScreenshot, hid, httpError]

/-- Witness for C1 at the identifier `../etc`. -/
theorem invalid_identifier_rejected_witness :
    (strings.Contains "../etc" ".." = true ∨ strings.Contains "../etc" "/" = true ∨
      strings.Contains "../etc" "\\" = true) ∧
    HandleAnalyze Examples.quietEnv Examples.emptyWorld "../etc" none
      = (⟨400, .text "Invalid ID"⟩, Examples.emptyWorld) :=
  ⟨by decide,
    (invalid_identifier_rejected Examples.quietEnv Examples.emptyWorld "../etc" "" none
      (by decide)).1⟩

/-! ## Request validation -/

/-- C2 (counterexample): the entry `*` has no scheme, so it is not an absolute URL, yet
`url.ParseRequestURI` accepts it whatever the rest of the parser does; `HandleAnalyze`
then removes and creates the workspace and starts the tool, and the status is not 400. -/
theorem analyze_accepts_star :
    url.hasScheme "*" = false ∧
    (HandleAnalyze Examples.quietEnv Examples.emptyWorld "abc" (some ⟨["*"]⟩)).1.status = 500 ∧
    (Op.RemoveAll ["tmp", "sitespeed", "abc"], true) ∈
      (HandleAnalyze Examples.quietEnv Examples.emptyWorld "abc" (some ⟨["*"]⟩)).2.log ∧
    (Op.MkdirAll ["tmp", "sitespeed", "abc"], true) ∈
      (HandleAnalyze Examples.quietEnv Examples.emptyWorld "abc" (some ⟨["*"]⟩)).2.log ∧
    (HandleAnalyze Examples.quietEnv Examples.emptyWorld "abc" (some ⟨["*"]⟩)).2.log.length = 5 := by
  decide

/-- C2 (amended): when the `urls` list is empty, has more than 5 entries, or has an entry
that `url.ParseRequestURI` rejects, `HandleAnalyze` answers 400 and returns the world
untouched: nothing was removed, created, run or stored. -/
theorem analyze_rejects_bad_urls (env : Env) (w : World) (id : String)
    (req : models.ApiAnalyzeRequest)
    (h : req.URLs.length = 0 ∨ req.URLs.length > 5 ∨
      ∃ u ∈ req.URLs, url.ParseRequestURI env.parseTail u = false) :
    (HandleAnalyze env w id (some req)).1.status = 400 ∧
    (HandleAnalyze env w id (some req)).2 = w := by
  unfold HandleAnalyze
  by_cases hid : invalidID id = true
  · simp [hid, httpError]
  · by_cases hlen : req.URLs.length = 0 ∨ req.URLs.length > 5
    · rw [if_neg hid]
      dsimp only
      rw [if_pos hlen]
      exact ⟨rfl, rfl⟩
    · have hbad : ∃ u ∈ req.URLs, url.ParseRequestURI env.parseTail u = false := by
        rcases h with h | h | h
        · exact absurd (Or.inl h) hlen
        · exact absurd (Or.inr h) hlen
        · exact h
      obtain ⟨u, hu, hrej⟩ := hbad
      have hfind : ∃ v, req.URLs.find? (fun u => !url.ParseRequestURI env.parseTail u)
          = some v := by
        cases hf : req.URLs.find? (fun u => !url.ParseRequestURI env.parseTail u) with
        | some v => exact ⟨v, rfl⟩
        | none =>
          rw [List.find?_eq_none] at hf
          have := hf u hu
          simp [hrej] at this
      obtain ⟨v, hv⟩ := hfind
      rw [if_neg hid]
      dsimp only
      rw [if_neg hlen, hv]
      exact ⟨rfl, rfl⟩

/-- Witness for the amended C2: a request with six URLs. -/
theorem analyze_rejects_bad_urls_witness :
    ((["a", "b", "c", "d", "e", "f"] : List String).length = 0 ∨
      (["a", "b", "c", "d", "e", "f"] : List String).length > 5 ∨
      ∃ u ∈ (["a", "b", "c", "d", "e", "f"] : List String),
        url.ParseRequestURI Examples.quietEnv.parseTail u = false) ∧
    (HandleAnalyze Examples.quietEnv Examples.emptyWorld "abc"
      (some ⟨["a", "b", "c", "d", "e", "f"]⟩)).1.status = 400 :=
  ⟨Or.inr (Or.inl (by decide)),
    (analyze_rejects_bad_urls Examples.quietEnv Examples.emptyWorld "abc"
      ⟨["a", "b", "c", "d", "e", "f"]⟩ (Or.inr (Or.inl (by decide)))).1⟩

/-! ## Workspace paths -/

/-- C3 (failing input): the identifier `.` passes the identifier guard, and
`filepath.Join(temp, "sitespeed", ".")` is the scratch root `<temp>/sitespeed` itself,
an ancestor of the workspace of job `abc`; running `HandleAnalyze` for `.` removes the
workspace of `abc`. -/
theorem dot_identifier_is_scratch_root :
    invalidID "." = false ∧
    filepath.Join ["tmp"] ["sitespeed", "."] = ["tmp", "sitespeed"] ∧
    filepath.Join ["tmp"] ["sitespeed", "abc"] = ["tmp", "sitespeed", "abc"] ∧
    (FS.lookup Examples.otherJobWorld.fs ["tmp", "sitespeed", "abc", "report.html"]).isSome
      = true ∧
    (FS.lookup
      (HandleAnalyze Examples.lenientEnv Examples.otherJobWorld "."
        (some ⟨["https://example.com"]⟩)).2.fs
      ["tmp", "sitespeed", "abc"]).isNone = true := by
  decide

/-! ## Path resolution inside the archive -/

theorem firstNamed_eq_find (files : List ZipFile) (name : String) :
    firstNamed files name = files.find? (fun f => f.Name = name) := by
  induction files with
  | nil => rfl
  | cons f rest ih =>
    by_cases h : f.Name = name
    · simp [firstNamed, h]
    · simp [firstNamed, h, ih]

theorem firstNamed_eq_none (files : List ZipFile) (name : String)
    (h : ∀ f ∈ files, f.Name ≠ name) : firstNamed files name = none := by
  rw [firstNamed_eq_find, List.find?_eq_none]
  intro f hf
  simpa using h f hf

/-- C4: the resolution of `HandleGetResult` is the two-step lookup of the
specification; `foo` resolves to the only entry `foo/index.html`; `missing` resolves to
nothing when neither `missing` nor `missing/index.html` is an entry, and the handler
then answers 404. -/
theorem resolve_is_two_step_lookup (files : List ZipFile) (path : String) :
    resolve files path = resolveSpec files path ∧
    (∀ content : String,
      resolve [⟨"foo/index.html", content⟩] "foo" = some ⟨"foo/index.html", content⟩) ∧
    ((∀ f ∈ files, f.Name ≠ "missing" ∧ f.Name ≠ "missing/index.html") →
      resolve files "missing" = none) ∧
    (∀ (env : Env) (w : World) (zipPath : Path),
      (OpenReader env w zipPath).1 = .ok files → resolve files path = none →
      (serveEntry env w zipPath path).1 = httpNotFound) := by
  refine ⟨?_, ?_, ?_, ?_⟩
  · unfold resolve resolveSpec
    simp only [firstNamed_eq_find]
    cases List.find? (fun f => decide (f.Name =
        strings.ReplaceAll (if path = "" then "index.html" else path) "\\" "/")) files with
    | some f => rfl
    | none =>
      by_cases hs : strings.HasSuffix
          (strings.ReplaceAll (if path = "" then "index.html" else path) "\\" "/") "/" = true
      · simp [hs]
      · simp [hs]
  · intro content
    rfl
  · intro h
    have h1 : firstNamed files "missing" = none :=
      firstNamed_eq_none files "missing" (fun f hf => (h f hf).1)
    have h2 : firstNamed files "missing/index.html" = none :=
      firstNamed_eq_none files "missing/index.html" (fun f hf => (h f hf).2)
    have hp : strings.ReplaceAll (if ("missing" : String) = "" then "index.html" else "missing")
        "\\" "/" = "missing" := by decide
    have hq : ("missing" : String) ++ "/index.html" = "missing/index.html" := by decide
    unfold resolve
    simp only [hp, h1, hq, h2]
    simp
  · intro env w zipPath hopen hres
    unfold serveEntry
    cases hr : OpenReader env w zipPath with
    | mk r w1 =>
      rw [hr] at hopen
      simp only at hopen
      subst hopen
      simp only [hres]

/-- Witness for C4: in an archive with the single entry `index.html`, `missing` is not
found. -/
theorem resolve_is_two_step_lookup_witness :
    (∀ f ∈ [(⟨"index.html", "<html>"⟩ : ZipFile)],
      f.Name ≠ "missing" ∧ f.Name ≠ "missing/index.html") ∧
    resolve [⟨"index.html", "<html>"⟩] "missing" = none :=
  ⟨by decide,
    (resolve_is_two_step_lookup [⟨"index.html", "<html>"⟩] "missing").2.2.1 (by decide)⟩

/-! ## Packing failures -/

/-- C6 (failing input): what `ZipDirectory` returns is always the error of `os.Create`,
whatever the walk did.  In `unreadableEnv` the walk stops with an error at `index.html`,
`ZipDirectory` still returns no error, and `HandleAnalyze` answers 200 and uploads an
archive that lacks the `pages` entries. -/
theorem zip_directory_drops_walk_error :
    (∀ (env : Env) (w : World) (source target : Path),
      (utils.ZipDirectory env w source target).1 = (os.Create env w target).1) ∧
    (utils.zipWalk Examples.unreadableEnv Examples.afterTool.fs ["tmp", "sitespeed", "abc"]).2
      = some Err.fault ∧
    (utils.ZipDirectory Examples.unreadableEnv Examples.afterTool ["tmp", "sitespeed", "abc"]
      ["tmp", "abc.zip"]).1 = none ∧
    (HandleAnalyze Examples.unreadableEnv Examples.emptyWorld "abc"
      (some ⟨["https://example.com"]⟩)).1.status = 200 ∧
    (HandleAnalyze Examples.unreadableEnv Examples.emptyWorld "abc"
      (some ⟨["https://example.com"]⟩)).2.store "results/abc/result.zip"
      = some "data/;data/browsertime.summary-total.json;index.html;" ∧
    (HandleAnalyze Examples.toolEnv Examples.emptyWorld "abc"
      (some ⟨["https://example.com"]⟩)).2.store "results/abc/result.zip"
      = some "data/;data/browsertime.summary-total.json;index.html;pages/;pages/example_com/;" := by
  refine ⟨?_, by decide, by decide, by decide, by decide, by decide⟩
  intro env w source target
  unfold utils.ZipDirectory
  cases hc : os.Create env w target with
  | mk e w1 =>
    cases e with
    | none => rfl
    | some err => rfl

/-! ## The body of a successful analysis -/

theorem analyzeUpload_ok (env : Env) (w : World) (id : String) (tempPath zipPath : Path)
    (bt : models.BrowserTime) (px : models.PageXray)
    (h : (analyzeUpload env w id tempPath zipPath bt px).1.status = 200) :
    (analyzeUpload env w id tempPath zipPath bt px).1 = ⟨200, .analyze (buildResponse bt px)⟩ := by
  unfold analyzeUpload at h ⊢
  split at h
  · simp [renderError] at h
  · rfl

/-- A 200 answer of the workspace stage carries the response built from the decoded
timing summary and the transfer-size summary. -/
theorem analyzeWorkspace_ok (env : Env) (w : World) (id : String)
    (req : models.ApiAnalyzeRequest) (tempPath resultDir : Path)
    (h : (analyzeWorkspace env w id req tempPath resultDir).1.status = 200) :
    ∃ bt px, (analyzeWorkspace env w id req tempPath resultDir).1
      = ⟨200, .analyze (buildResponse bt px)⟩ := by
  unfold analyzeWorkspace at h ⊢
  simp only [] at h ⊢
  split at h
  · simp [renderError] at h
  · split at h
    · simp [renderError] at h
    · split at h
      · simp [renderError] at h
      · split at h
        · simp [renderError] at h
        · split at h
          · simp [renderError] at h
          · split at h
            · simp [renderError] at h
            · split at h
              · simp [renderError] at h
              · rw [if_neg (by assumption), if_neg (by assumption)]
                exact ⟨_, _, analyzeUpload_ok env _ id tempPath _ _ _ h⟩

/-- A 200 answer of `HandleAnalyze` carries the response built from the decoded
summaries. -/
theorem HandleAnalyze_ok (env : Env) (w : World) (id : String)
    (body : Option models.ApiAnalyzeRequest)
    (h : (HandleAnalyze env w id body).1.status = 200) :
    ∃ bt px, (HandleAnalyze env w id body).1 = ⟨200, .analyze (buildResponse bt px)⟩ := by
  unfold HandleAnalyze at h ⊢
  split at h
  · simp [httpError] at h
  · split at h
    · simp [httpError] at h
    · split at h
      · simp [renderError] at h
      · split at h
        · simp [renderError] at h
        · simp only [] at h ⊢
          split at h
          · simp [renderError] at h
          · rw [if_neg (by assumption)]
            rw [if_neg (by assumption)]
            exact analyzeWorkspace_ok env _ id _ env.TempDir _ h

/-! ## Summary metrics -/

/-- C7 (counterexample): a `ttfb` metric that is present with median 0 gives the
response field 0, so a field can be 0 although its source metric is not absent. -/
theorem zero_field_with_present_metric :
    (buildResponse ⟨none, some ⟨some ⟨0⟩, none, none, none, none⟩⟩ ⟨none⟩).Ttfb = 0 ∧
    ((⟨none, some ⟨some ⟨0⟩, none, none, none, none⟩⟩ : models.BrowserTime).GoogleWebVitals.bind
      (fun v => v.Ttfb)) ≠ none := by
  constructor
  · rfl
  · simp

theorem buildResponse_eq (bt : models.BrowserTime) (px : models.PageXray) :
    buildResponse bt px =
      ⟨medianOrZero (bt.GoogleWebVitals.bind (fun v => v.Ttfb)),
        medianOrZero (bt.Timings.bind (fun t => t.FullyLoaded)),
        medianOrZero (bt.GoogleWebVitals.bind (fun v => v.LargestContentfulPaint)),
        medianOrZero (bt.GoogleWebVitals.bind (fun v => v.FirstContentfulPaint)),
        medianOrZero (bt.GoogleWebVitals.bind (fun v => v.CumulativeLayoutShift)),
        medianOrZero px.TransferSize⟩ := by
  obtain ⟨t, v⟩ := bt
  obtain ⟨ts⟩ := px
  rcases v with _ | ⟨_ | a, _ | b, _ | c, _ | d, e⟩ <;> rcases t with _ | ⟨_ | f⟩ <;>
    rcases ts with _ | g <;> rfl

/-- C7 (amended): every field of the response is the median of its source metric, and 0
when that metric or a parent object of it is absent; with `ttfb.median = 120.5` the `ttfb`
field is 120.5; a run without a transfer-size summary ends with status 200 and
`transferSize = 0`; every 200 answer of `HandleAnalyze` carries a response built this
way. -/
theorem response_fields_are_medians (bt : models.BrowserTime) (px : models.PageXray) :
    (buildResponse bt px).Ttfb = medianOrZero (bt.GoogleWebVitals.bind (fun v => v.Ttfb)) ∧
    (buildResponse bt px).LargestContentfulPaint
      = medianOrZero (bt.GoogleWebVitals.bind (fun v => v.LargestContentfulPaint)) ∧
    (buildResponse bt px).FirstContentfulPaint
      = medianOrZero (bt.GoogleWebVitals.bind (fun v => v.FirstContentfulPaint)) ∧
    (buildResponse bt px).CumulativeLayoutShift
      = medianOrZero (bt.GoogleWebVitals.bind (fun v => v.CumulativeLayoutShift)) ∧
    (buildResponse bt px).FullyLoaded
      = medianOrZero (bt.Timings.bind (fun t => t.FullyLoaded)) ∧
    (buildResponse bt px).TransferSize = medianOrZero px.TransferSize ∧
    medianOrZero none = 0 ∧
    (∀ m : models.Metric, medianOrZero (some m) = m.Median) ∧
    (∀ (t : Option models.Timings) (a b c d : Option models.Metric),
      (buildResponse ⟨t, some ⟨some ⟨120.5⟩, a, b, c, d⟩⟩ px).Ttfb = 120.5) ∧
    (HandleAnalyze Examples.toolEnv Examples.emptyWorld "abc"
      (some ⟨["https://example.com"]⟩)).1 = ⟨200, .analyze ⟨120.5, 0, 0, 0, 0, 0⟩⟩ ∧
    (∀ (env : Env) (w : World) (id : String) (body : Option models.ApiAnalyzeRequest),
      (HandleAnalyze env w id body).1.status = 200 →
      ∃ bt' px', (HandleAnalyze env w id body).1
        = ⟨200, .analyze (buildResponse bt' px')⟩) := by
  refine ⟨?_, ?_, ?_, ?_, ?_, ?_, rfl, fun _ => rfl, ?_, by rfl, HandleAnalyze_ok⟩
  · rw [buildResponse_eq]
  · rw [buildResponse_eq]
  · rw [buildResponse_eq]
  · rw [buildResponse_eq]
  · rw [buildResponse_eq]
  · rw [buildResponse_eq]
  · intro t a b c d
    rw [buildResponse_eq]
    rfl

/-- Witness for the amended C7: the 200 answer of the example run. -/
theorem response_fields_are_medians_witness :
    (HandleAnalyze Examples.toolEnv Examples.emptyWorld "abc"
      (some ⟨["https://example.com"]⟩)).1.status = 200 ∧
    ∃ bt' px', (HandleAnalyze Examples.toolEnv Examples.emptyWorld "abc"
      (some ⟨["https://example.com"]⟩)).1 = ⟨200, .analyze (buildResponse bt' px')⟩ :=
  ⟨by decide,
    (response_fields_are_medians ⟨none, none⟩ ⟨none⟩).2.2.2.2.2.2.2.2.2.2
      Examples.toolEnv Examples.emptyWorld "abc" (some ⟨["https://example.com"]⟩) (by decide)⟩

/-! ## Store failures on the read path -/

/-- C9 (counterexample): the objects of job `abc` exist, `GetObject` fails for a reason
other than a missing key, and both read handlers answer 404. -/
theorem store_failure_answered_404 :
    Examples.storedWorld.store "results/abc/result.zip" = some "PK-archive" ∧
    (match (storage.GetObject Examples.storeDownEnv Examples.storedWorld
        "results/abc/result.zip").1 with
      | .error e => decide (e = Err.fault)
      | .ok _ => false) = true ∧
    (HandleGetResult Examples.storeDownEnv Examples.storedWorld "abc" "").1.status = 404 ∧
    (HandleGetScreenshot Examples.storeDownEnv Examples.storedWorld "abc").1.status = 404 := by
  decide

/-- C9 (amended): for a valid identifier, every failure of the download in
`HandleGetResult` and of the get in `HandleGetScreenshot`, whether the object is missing
or the store failed otherwise, is answered with 404. -/
theorem download_failure_answered_404 (env : Env) (w : World) (id path : String)
    (hid : invalidID id = false) :
    (∀ e, (storage.GetFile env w ("results/" ++ id ++ "/screenshot.png")).1 = .error e →
      (HandleGetScreenshot env w id).1 = httpNotFound) ∧
    (∀ e,
      (os.Stat env w (filepath.Join env.TempDir ["sitespeed-cache", id ++ ".zip"])).1
        = .error .notExist →
      (os.MkdirAll env
        (os.Stat env w (filepath.Join env.TempDir ["sitespeed-cache", id ++ ".zip"])).2
        (filepath.Dir (filepath.Join env.TempDir ["sitespeed-cache", id ++ ".zip"]))).1 = none →
      (storage.DownloadFile env
        (os.MkdirAll env
          (os.Stat env w (filepath.Join env.TempDir ["sitespeed-cache", id ++ ".zip"])).2
          (filepath.Dir (filepath.Join env.TempDir ["sitespeed-cache", id ++ ".zip"]))).2
        ("results/" ++ id ++ "/result.zip")
        (filepath.Join env.TempDir ["sitespeed-cache", id ++ ".zip"])).1 = some e →
      (HandleGetResult env w id path).1 = httpNotFound) := by
  constructor
  · intro e h
    unfold HandleGetScreenshot
    rw [hid]
    cases hg : storage.GetFile env w ("results/" ++ id ++ "/screenshot.png") with
    | mk r w1 =>
      rw [hg] at h
      simp only at h
      subst h
      rfl
  · intro e hstat hmk hdl
    unfold HandleGetResult
    rw [hid]
    simp only [Bool.false_eq_true, if_false]
    cases hs : os.Stat env w (filepath.Join env.TempDir ["sitespeed-cache", id ++ ".zip"]) with
    | mk r1 w1 =>
      rw [hs] at hstat hmk hdl
      simp only at hstat hmk hdl
      subst hstat
      simp only
      cases hm : os.MkdirAll env w1
          (filepath.Dir (filepath.Join env.TempDir ["sitespeed-cache", id ++ ".zip"])) with
      | mk r2 w2 =>
        rw [hm] at hmk hdl
        simp only at hmk hdl
        subst hmk
        simp only
        cases hd : storage.DownloadFile env w2 ("results/" ++ id ++ "/result.zip")
            (filepath.Join env.TempDir ["sitespeed-cache", id ++ ".zip"]) with
        | mk r3 w3 =>
          rw [hd] at hdl
          simp only at hdl
          subst hdl
          rfl

/-- Witness for the amended C9: the unreachable store of `storeDownEnv`. -/
theorem download_failure_answered_404_witness :
    invalidID "abc" = false ∧
    (HandleGetScreenshot Examples.storeDownEnv Examples.storedWorld "abc").1 = httpNotFound :=
  ⟨by decide,
    (download_failure_answered_404 Examples.storeDownEnv Examples.storedWorld "abc" ""
      (by decide)).1 Err.fault rfl⟩

/-! ## The local cache entry -/

theorem OpenReader_snd (env : Env) (w : World) (p : Path) :
    ∃ b, (OpenReader env w p).2 = w.record (.OpenReader p) b := by
  unfold OpenReader
  repeat' split
  all_goals exact ⟨_, rfl⟩

theorem serveEntry_snd (env : Env) (w : World) (zipPath : Path) (path : String) :
    (∃ b, (serveEntry env w zipPath path).2 = w.record (.OpenReader zipPath) b) ∨
    ∃ b n c, (serveEntry env w zipPath path).2
      = (w.record (.OpenReader zipPath) b).record (.OpenEntry n) c := by
  unfold serveEntry
  obtain ⟨b, hb⟩ := OpenReader_snd env w zipPath
  cases hr : OpenReader env w zipPath with
  | mk r w1 =>
    rw [hr] at hb
    simp only at hb
    subst hb
    cases r with
    | error e => left; exact ⟨b, rfl⟩
    | ok files =>
      simp only
      cases resolve files path with
      | none => left; exact ⟨b, rfl⟩
      | some file =>
        right
        simp only
        split
        · exact ⟨b, file.Name, false, rfl⟩
        · exact ⟨b, file.Name, true, rfl⟩

theorem serveEntry_fs (env : Env) (w : World) (zipPath : Path) (path : String) :
    (serveEntry env w zipPath path).2.fs = w.fs := by
  rcases serveEntry_snd env w zipPath path with ⟨b, h⟩ | ⟨b, n, c, h⟩ <;> rw [h] <;> rfl

theorem serveEntry_log (env : Env) (w : World) (zipPath : Path) (path : String)
    (e : Op × Bool) (h : e ∈ (serveEntry env w zipPath path).2.log) :
    e ∈ w.log ∨ (∃ b, e = (Op.OpenReader zipPath, b)) ∨ ∃ n b, e = (Op.OpenEntry n, b) := by
  rcases serveEntry_snd env w zipPath path with ⟨b, h1⟩ | ⟨b, n, c, h1⟩
  · rw [h1] at h
    simp only [World.record, List.mem_append, List.mem_singleton] at h
    rcases h with h | h
    · exact Or.inl h
    · exact Or.inr (Or.inl ⟨b, h⟩)
  · rw [h1] at h
    simp only [World.record, List.mem_append, List.mem_singleton] at h
    rcases h with (h | h) | h
    · exact Or.inl h
    · exact Or.inr (Or.inl ⟨b, h⟩)
    · exact Or.inr (Or.inr ⟨n, c, h⟩)

/-- The four ways in which `DownloadFile` ends. -/
theorem DownloadFile_cases (env : Env) (w : World) (key : String) (dest : Path) :
    ((storage.DownloadFile env w key dest).2.fs = w.fs ∧
      (storage.DownloadFile env w key dest).2.log = w.log ++ [(Op.GetObject key, false)]) ∨
    ((storage.DownloadFile env w key dest).2.fs = w.fs ∧
      (storage.DownloadFile env w key dest).2.log
        = w.log ++ [(Op.GetObject key, true), (Op.Create dest, false)]) ∨
    ((storage.DownloadFile env w key dest).2.log
        = w.log ++ [(Op.GetObject key, true), (Op.Create dest, true), (Op.Copy dest, false)]) ∨
    ((storage.DownloadFile env w key dest).2.log
        = w.log ++ [(Op.GetObject key, true), (Op.Create dest, true), (Op.Copy dest, true)] ∧
      ∃ body, w.store key = some body ∧
        FS.lookup (storage.DownloadFile env w key dest).2.fs dest = some (.file body)) := by
  unfold storage.DownloadFile storage.GetObject
  by_cases hg : env.fails (.GetObject key) = true
  · left; simp [hg, World.record]
  · cases hst : w.store key with
    | none => left; simp [hg, hst, World.record]
    | some body =>
      right
      simp only [hg, hst, Bool.false_eq_true, if_false]
      unfold os.Create
      by_cases hc : env.fails (.Create dest) = true
      · left; simp [hc, World.record]
      · simp only [hc, Bool.false_eq_true, if_false, World.record]
        cases hl : FS.lookup w.fs dest with
        | some n =>
          cases n with
          | dir es => left; simp
          | file s =>
            simp only
            cases hp : FS.put w.fs dest (.file "") with
            | none => left; simp
            | some fs1 =>
              right
              simp only
              by_cases hcp : env.fails (.Copy dest) = true
              · left; simp [hcp, os.writeFile, World.record]; split <;> simp
              · right
                obtain ⟨fs2, hfs2⟩ := FS.put_put w.fs fs1 dest (.file "") (.file body) hp
                simp [hcp, os.writeFile, World.record, hfs2]
                exact FS.lookup_put_self fs1 fs2 dest (.file body) hfs2
        | none =>
          simp only
          cases hp : FS.put w.fs dest (.file "") with
          | none => left; simp
          | some fs1 =>
            right
            simp only
            by_cases hcp : env.fails (.Copy dest) = true
            · left; simp [hcp, os.writeFile, World.record]; split <;> simp
            · right
              obtain ⟨fs2, hfs2⟩ := FS.put_put w.fs fs1 dest (.file "") (.file body) hp
              simp [hcp, os.writeFile, World.record, hfs2]
              exact FS.lookup_put_self fs1 fs2 dest (.file body) hfs2
theorem Stat_cold (env : Env) (w : World) (p : Path) (h : FS.lookup w.fs p = none) :
    os.Stat env w p = (.error .fault, w.record (.Stat p) false) ∨
    os.Stat env w p = (.error .notExist, w.record (.Stat p) false) := by
  unfold os.Stat
  by_cases hf : env.fails (.Stat p) = true
  · left; simp [hf]
  · right; simp [hf, h]

theorem MkdirAll_cases (env : Env) (w : World) (p : Path) :
    (∃ e, os.MkdirAll env w p = (some e, w.record (.MkdirAll p) false)) ∨
    ∃ fs, FS.mkdirAll w.fs p = some fs ∧
      os.MkdirAll env w p = (none, { w.record (.MkdirAll p) true with fs := fs }) := by
  unfold os.MkdirAll
  by_cases hf : env.fails (.MkdirAll p) = true
  · left; exact ⟨.fault, by simp [hf]⟩
  · cases hm : FS.mkdirAll w.fs p with
    | none => left; exact ⟨.notDir, by simp [hf]⟩
    | some fs => right; exact ⟨fs, rfl, by simp [hf]⟩

/-- The world that `HandleGetResult` returns once the download was attempted: the
filesystem is the one the download left, and the trace gained only archive events. -/
theorem after_download (env : Env) (w3 : World) (zipPath : Path) (path : String)
    (r : Option Err) :
    ((match (r, w3) with
      | (some _, w) => (httpNotFound, w)
      | (none, w) => serveEntry env w zipPath path).2.fs = w3.fs) ∧
    ∀ e ∈ (match (r, w3) with
      | (some _, w) => (httpNotFound, w)
      | (none, w) => serveEntry env w zipPath path).2.log,
      e ∈ w3.log ∨ (∃ b, e = (Op.OpenReader zipPath, b)) ∨ ∃ n b, e = (Op.OpenEntry n, b) := by
  cases r with
  | some err => exact ⟨rfl, fun e he => Or.inl he⟩
  | none => exact ⟨serveEntry_fs env w3 zipPath path, serveEntry_log env w3 zipPath path⟩

/-- C10 (amended): on a cold identifier, when `GetObject` fails or the cache file cannot
be created, no cache file exists after `HandleGetResult`; when the copy completes, the
cache file holds exactly the stored `results/<id>/result.zip` object. -/
theorem cache_entry_after_get (env : Env) (w : World) (id path : String)
    (hid : invalidID id = false) (hlog : w.log = [])
    (hcold : FS.lookup w.fs (filepath.Join env.TempDir ["sitespeed-cache", id ++ ".zip"])
      = none) :
    ((Op.GetObject ("results/" ++ id ++ "/result.zip"), false)
        ∈ (HandleGetResult env w id path).2.log →
      FS.lookup (HandleGetResult env w id path).2.fs
        (filepath.Join env.TempDir ["sitespeed-cache", id ++ ".zip"]) = none) ∧
    ((Op.Create (filepath.Join env.TempDir ["sitespeed-cache", id ++ ".zip"]), false)
        ∈ (HandleGetResult env w id path).2.log →
      FS.lookup (HandleGetResult env w id path).2.fs
        (filepath.Join env.TempDir ["sitespeed-cache", id ++ ".zip"]) = none) ∧
    ((Op.Copy (filepath.Join env.TempDir ["sitespeed-cache", id ++ ".zip"]), true)
        ∈ (HandleGetResult env w id path).2.log →
      ∃ body, w.store ("results/" ++ id ++ "/result.zip") = some body ∧
        FS.lookup (HandleGetResult env w id path).2.fs
          (filepath.Join env.TempDir ["sitespeed-cache", id ++ ".zip"])
          = some (.file body)) := by
  generalize hzp : filepath.Join env.TempDir ["sitespeed-cache", id ++ ".zip"] = zp at hcold ⊢
  generalize hkey : "results/" ++ id ++ "/result.zip" = key
  have hres : HandleGetResult env w id path =
      (match os.Stat env w zp with
        | (.error .notExist, w) =>
          match os.MkdirAll env w (filepath.Dir zp) with
          | (some _, w) => (httpError "Internal Server Error" 500, w)
          | (none, w) =>
            match storage.DownloadFile env w key zp with
            | (some _, w) => (httpNotFound, w)
            | (none, w) => serveEntry env w zp path
        | (_, w) => serveEntry env w zp path) := by
    unfold HandleGetResult
    rw [hid, ← hzp, ← hkey]
    rfl
  rw [hres]
  rcases Stat_cold env w zp hcold with hs | hs
  · -- the stat itself fails: nothing is downloaded
    rw [hs]
    simp only
    have hfs := serveEntry_fs env (w.record (.Stat zp) false) zp path
    have hl := serveEntry_log env (w.record (.Stat zp) false) zp path
    rw [hfs]
    refine ⟨fun _ => hcold, fun _ => hcold, fun h => ?_⟩
    rcases hl _ h with h1 | ⟨b, h1⟩ | ⟨n, b, h1⟩
    · simp [World.record, hlog] at h1
    · simp at h1
    · simp at h1
  · rw [hs]
    simp only
    rcases MkdirAll_cases env (w.record (.Stat zp) false) (filepath.Dir zp) with
      ⟨e, hm⟩ | ⟨fs, hmk, hm⟩
    · rw [hm]
      simp only
      refine ⟨fun _ => hcold, fun _ => hcold, fun h => ?_⟩
      simp [World.record, hlog] at h
    · rw [hm]
      simp only
      have hnone : FS.lookup fs zp = none :=
        FS.lookup_mkdirAll_dropLast w.fs fs zp hmk hcold
      generalize hw2 : ({ (w.record (.Stat zp) false).record (.MkdirAll (filepath.Dir zp)) true
        with fs := fs } : World) = w2
      have hw2fs : w2.fs = fs := by rw [← hw2]
      have hw2store : w2.store = w.store := by rw [← hw2]; rfl
      have hw2log : w2.log = [(Op.Stat zp, false), (Op.MkdirAll (filepath.Dir zp), true)] := by
        rw [← hw2]; simp [World.record, hlog]
      obtain ⟨hfs, hl⟩ := after_download env (storage.DownloadFile env w2 key zp).2 zp path
        (storage.DownloadFile env w2 key zp).1
      rw [hfs]
      rcases DownloadFile_cases env w2 key zp with
        ⟨h1, h2⟩ | ⟨h1, h2⟩ | h2 | ⟨h2, body, hb, hlook⟩
      · rw [h1, hw2fs]
        refine ⟨fun _ => hnone, fun _ => hnone, fun h => ?_⟩
        rcases hl _ h with h3 | ⟨b, h3⟩ | ⟨n, b, h3⟩
        · simp [h2, hw2log] at h3
        · simp at h3
        · simp at h3
      · rw [h1, hw2fs]
        refine ⟨fun _ => hnone, fun _ => hnone, fun h => ?_⟩
        rcases hl _ h with h3 | ⟨b, h3⟩ | ⟨n, b, h3⟩
        · simp [h2, hw2log] at h3
        · simp at h3
        · simp at h3
      · refine ⟨fun h => ?_, fun h => ?_, fun h => ?_⟩ <;>
        · rcases hl _ h with h3 | ⟨b, h3⟩ | ⟨n, b, h3⟩
          · simp [h2, hw2log] at h3
          · simp at h3
          · simp at h3
      · refine ⟨fun h => ?_, fun h => ?_, fun _ => ⟨body, by rw [← hw2store]; exact hb, hlook⟩⟩ <;>
        · rcases hl _ h with h3 | ⟨b, h3⟩ | ⟨n, b, h3⟩
          · simp [h2, hw2log] at h3
          · simp at h3
          · simp at h3
/-- Witness for the amended C10: a complete download of the archive of `abc`. -/
theorem cache_entry_after_get_witness :
    invalidID "abc" = false ∧ Examples.storedWorld.log = [] ∧
    FS.lookup Examples.storedWorld.fs
      (filepath.Join Examples.quietEnv.TempDir ["sitespeed-cache", "abc" ++ ".zip"]) = none ∧
    ((Op.Copy (filepath.Join Examples.quietEnv.TempDir ["sitespeed-cache", "abc" ++ ".zip"]),
        true) ∈ (HandleGetResult Examples.quietEnv Examples.storedWorld "abc" "").2.log →
      ∃ body, Examples.storedWorld.store ("results/" ++ "abc" ++ "/result.zip") = some body ∧
        FS.lookup (HandleGetResult Examples.quietEnv Examples.storedWorld "abc" "").2.fs
          (filepath.Join Examples.quietEnv.TempDir ["sitespeed-cache", "abc" ++ ".zip"])
          = some (.file body)) :=
  ⟨by decide, rfl, by rfl,
    (cache_entry_after_get Examples.quietEnv Examples.storedWorld "abc" "" (by decide) rfl
      (by rfl)).2.2⟩

/-- C10 (counterexample): the identifier `abc` is cold and its archive is stored; the
copy of the body stops after two bytes; `HandleGetResult` answers 404 and leaves a cache
file that holds only the first two bytes of the stored object. -/
theorem interrupted_copy_leaves_cache_file :
    (FS.lookup Examples.storedWorld.fs ["tmp", "sitespeed-cache", "abc.zip"]).isNone = true ∧
    Examples.storedWorld.store "results/abc/result.zip" = some "PK-archive" ∧
    (HandleGetResult Examples.brokenCopyEnv Examples.storedWorld "abc" "").1.status = 404 ∧
    (FS.lookup (HandleGetResult Examples.brokenCopyEnv Examples.storedWorld "abc" "").2.fs
      ["tmp", "sitespeed-cache", "abc.zip"]).bind fileContent = some "PK" := by
  decide

/-! ## Lemmas on strings and joined paths -/

theorem splitChars_ne_nil (s : List Char) : filepath.splitChars s ≠ [] := by
  cases s with
  | nil => simp [filepath.splitChars]
  | cons c cs =>
    unfold filepath.splitChars
    split
    · simp
    · split <;> simp

theorem splitChars_append_slash (a b : List Char) :
    filepath.splitChars (a ++ '/' :: b) = filepath.splitChars a ++ filepath.splitChars b := by
  induction a with
  | nil => simp [filepath.splitChars]
  | cons c a ih =>
    by_cases hc : c = '/'
    · subst hc
      simp [filepath.splitChars, ih]
    · have h1 : filepath.splitChars (c :: (a ++ '/' :: b)) =
          (match filepath.splitChars (a ++ '/' :: b) with
            | [] => [[c]]
            | w :: ws => (c :: w) :: ws) := by
        rw [filepath.splitChars]; simp [hc]
      have h2 : filepath.splitChars (c :: a) =
          (match filepath.splitChars a with
            | [] => [[c]]
            | w :: ws => (c :: w) :: ws) := by
        rw [filepath.splitChars]; simp [hc]
      rw [List.cons_append, h1, h2, ih]
      cases hs : filepath.splitChars a with
      | nil => exact absurd hs (splitChars_ne_nil a)
      | cons w ws => simp

theorem splitChars_no_slash (s : List Char) (h : s.contains '/' = false) :
    filepath.splitChars s = [s] := by
  induction s with
  | nil => rfl
  | cons c cs ih =>
    simp only [List.contains_cons, Bool.or_eq_false_iff] at h
    have hc : ¬ c = '/' := by
      intro hc
      rw [hc] at h
      simp at h
    rw [filepath.splitChars]
    simp [hc, ih h.2]

theorem validName_data (n : String) (h : validName n = true) :
    n ≠ "" ∧ n ≠ "." ∧ n ≠ ".." ∧ n.data.contains '/' = false := by
  unfold validName at h
  simp only [Bool.and_eq_true, decide_eq_true_eq, Bool.not_eq_true'] at h
  exact ⟨h.1.1.1, h.1.1.2, h.1.2, h.2⟩

/-- Splitting a joined list of valid names gives the names back. -/
theorem splitChars_joinChars (s : List String) (hs : s ≠ [])
    (hv : ∀ n ∈ s, validName n = true) :
    filepath.splitChars (filepath.joinChars s) = s.map String.data := by
  induction s with
  | nil => exact absurd rfl hs
  | cons c rest ih =>
    have hc := (validName_data c (hv c (List.mem_cons_self _ _))).2.2.2
    cases rest with
    | nil => simp [filepath.joinChars, splitChars_no_slash _ hc]
    | cons d rest' =>
      have ih' := ih (by simp) (fun n hn => hv n (List.mem_cons_of_mem _ hn))
      simp only [filepath.joinChars, splitChars_append_slash, splitChars_no_slash _ hc, ih']
      simp

theorem joinSep_injective (s t : List String) (hs : s ≠ []) (ht : t ≠ [])
    (hvs : ∀ n ∈ s, validName n = true) (hvt : ∀ n ∈ t, validName n = true)
    (h : filepath.joinSep s = filepath.joinSep t) : s = t := by
  have h1 : filepath.joinChars s = filepath.joinChars t := by
    have := congrArg String.data h
    simpa [filepath.joinSep] using this
  have h2 := splitChars_joinChars s hs hvs
  have h3 := splitChars_joinChars t ht hvt
  rw [h1, h3] at h2
  have hinj : Function.Injective String.data := fun a b hab => String.ext hab
  exact (List.map_injective_iff.mpr hinj h2).symm

/-- A joined list of valid names is not a joined list followed by a slash. -/
theorem joinSep_ne_slash (s t : List String) (hs : s ≠ []) (ht : t ≠ [])
    (hvs : ∀ n ∈ s, validName n = true) (hvt : ∀ n ∈ t, validName n = true) :
    filepath.joinSep s ≠ filepath.joinSep t ++ "/" := by
  intro h
  have h1 : filepath.joinChars s = filepath.joinChars t ++ ['/'] := by
    have := congrArg String.data h
    simpa [filepath.joinSep] using this
  have h2 := splitChars_joinChars s hs hvs
  have h3 := splitChars_joinChars t ht hvt
  rw [h1, splitChars_append_slash, h3] at h2
  have hlast : ([] : List Char) ∈ s.map String.data := by
    rw [← h2]; simp [filepath.splitChars]
  obtain ⟨n, hn, hd⟩ := List.mem_map.mp hlast
  have := (validName_data n (hvs n hn)).1
  exact this (String.ext hd)

theorem joinSep_ne_special (s : List String) (hs : s ≠ [])
    (hvs : ∀ n ∈ s, validName n = true) :
    filepath.joinSep s ≠ "" ∧ filepath.joinSep s ≠ "." ∧ filepath.joinSep s ++ "/" ≠ "./" := by
  have h2 := splitChars_joinChars s hs hvs
  refine ⟨?_, ?_, ?_⟩
  · intro h
    have h1 : filepath.joinChars s = [] := by
      have := congrArg String.data h
      simpa [filepath.joinSep] using this
    rw [h1] at h2
    have hm : ([] : List Char) ∈ s.map String.data := by rw [← h2]; simp [filepath.splitChars]
    obtain ⟨n, hn, hd⟩ := List.mem_map.mp hm
    exact (validName_data n (hvs n hn)).1 (String.ext hd)
  · intro h
    have h1 : filepath.joinChars s = ['.'] := by
      have := congrArg String.data h
      simpa [filepath.joinSep] using this
    rw [h1] at h2
    have hm : ['.'] ∈ s.map String.data := by rw [← h2]; simp [filepath.splitChars]
    obtain ⟨n, hn, hd⟩ := List.mem_map.mp hm
    exact (validName_data n (hvs n hn)).2.1 (String.ext hd)
  · intro h
    have h1 : filepath.joinChars s ++ ['/'] = ['.', '/'] := by
      have := congrArg String.data h
      simpa [filepath.joinSep] using this
    have h3 : filepath.joinChars s = ['.'] := by
      have := congrArg List.dropLast h1
      simpa using this
    rw [h3] at h2
    have hm : ['.'] ∈ s.map String.data := by rw [← h2]; simp [filepath.splitChars]
    obtain ⟨n, hn, hd⟩ := List.mem_map.mp hm
    exact (validName_data n (hvs n hn)).2.1 (String.ext hd)

theorem replaceChars_no_backslash (s : List Char)
    (h : strings.containsChars s ['\\'] = false) :
    strings.replaceChars ['\\'] ['/'] 0 s = s := by
  induction s with
  | nil => rfl
  | cons c cs ih =>
    unfold strings.containsChars at h
    simp only [Bool.or_eq_false_iff] at h
    rw [strings.replaceChars]
    simp only [h.1, Bool.false_eq_true, if_false, ih h.2]

theorem ReplaceAll_no_backslash (s : String) (h : strings.Contains s "\\" = false) :
    strings.ReplaceAll s "\\" "/" = s := by
  unfold strings.ReplaceAll
  have : strings.replaceChars ("\\" : String).data ("/" : String).data 0 s.data = s.data :=
    replaceChars_no_backslash s.data h
  rw [this]

/-! ## Packing a tree and resolving its files -/

theorem relComponents_append (source rel : List String) :
    filepath.relComponents source (source ++ rel) = rel := by
  induction source with
  | nil => simp [filepath.relComponents]
  | cons b bs ih =>
    simp only [List.cons_append, filepath.relComponents, if_true]
    exact ih

theorem Rel_append (source : Path) (c : String) (cs : List String) :
    filepath.Rel source (source ++ c :: cs) = filepath.joinSep (c :: cs) := by
  unfold filepath.Rel
  rw [relComponents_append]

theorem Rel_self (source : Path) : filepath.Rel source (source ++ []) = "." := by
  unfold filepath.Rel
  rw [relComponents_append]

theorem find_wellFormed (es : List (String × Node)) (n : String) (child : Node)
    (hwf : wellFormedEntries es = true) (h : FS.find es n = some child) :
    validName n = true ∧ child.wellFormed = true := by
  induction es with
  | nil => simp [FS.find] at h
  | cons e rest ih =>
    obtain ⟨k, v⟩ := e
    simp only [wellFormedEntries, Bool.and_eq_true] at hwf
    by_cases hk : k = n
    · simp only [FS.find, if_pos hk, Option.some.injEq] at h
      subst hk; subst h
      exact ⟨hwf.1.1.1, hwf.1.2⟩
    · simp only [FS.find, if_neg hk] at h
      exact ih hwf.2 h

theorem lookup_valid (node : Node) (rel : List String) (x : Node)
    (hwf : node.wellFormed = true) (h : FS.lookup node rel = some x) :
    ∀ n ∈ rel, validName n = true := by
  induction rel generalizing node with
  | nil => simp
  | cons c rest ih =>
    cases node with
    | file s => simp [FS.lookup] at h
    | dir es =>
      simp only [FS.lookup] at h
      cases hf : FS.find es c with
      | none => simp [hf] at h
      | some child =>
        simp only [hf] at h
        have hw := find_wellFormed es c child (by simpa [Node.wellFormed] using hwf) hf
        intro n hn
        rcases List.mem_cons.mp hn with hn | hn
        · rw [hn]; exact hw.1
        · exact ih child hw.2 h n hn

/-- What the callback of `ZipDirectory` does at a file below the root when nothing
fails. -/
theorem zipWalkFn_file (env : Env) (hok : ∀ op, env.fails op = false) (source : Path)
    (archive : List ZipFile) (c : String) (cs : List String) (content : String)
    (hv : ∀ n ∈ c :: cs, validName n = true) :
    utils.zipWalkFn env source archive (source ++ c :: cs) (some (.file content)) none
      = (archive ++ [⟨filepath.joinSep (c :: cs), content⟩], none) := by
  have hsp := joinSep_ne_special (c :: cs) (by simp) hv
  unfold utils.zipWalkFn
  simp only [hok, Bool.false_eq_true, if_false, Rel_append, filepath.ToSlash, Node.IsDir]
  rw [if_neg]
  intro h
  rcases h with h | h
  · have hj : filepath.joinChars (c :: cs) = ['.', '/'] := by
      have hd := congrArg String.data h
      simpa [filepath.joinSep] using hd
    have hs := splitChars_joinChars (c :: cs) (by simp) hv
    rw [hj] at hs
    have hm : ([] : List Char) ∈ (c :: cs).map String.data := by
      rw [← hs]; simp [filepath.splitChars]
    obtain ⟨n, hn, hdn⟩ := List.mem_map.mp hm
    exact (validName_data n (hv n hn)).1 (String.ext hdn)
  · exact hsp.2.1 h

/-- What the callback of `ZipDirectory` does at a directory below the root when nothing
fails. -/
theorem zipWalkFn_dir (env : Env) (hok : ∀ op, env.fails op = false) (source : Path)
    (archive : List ZipFile) (c : String) (cs : List String) (es : List (String × Node))
    (hv : ∀ n ∈ c :: cs, validName n = true) :
    utils.zipWalkFn env source archive (source ++ c :: cs) (some (.dir es)) none
      = (archive ++ [⟨filepath.joinSep (c :: cs) ++ "/", ""⟩], none) := by
  have hsp := joinSep_ne_special (c :: cs) (by simp) hv
  unfold utils.zipWalkFn
  simp only [hok, Bool.false_eq_true, if_false, Rel_append, filepath.ToSlash, Node.IsDir,
    if_true]
  rw [if_neg]
  intro h
  rcases h with h | h
  · exact hsp.2.2 h
  · have hd := congrArg String.data h
    have hj : filepath.joinChars (c :: cs) ++ ['/'] = ['.'] := by
      simpa [filepath.joinSep] using hd
    have := congrArg List.length hj
    simp only [List.length_append, List.length_cons, List.length_nil] at this
    have hne : filepath.joinChars (c :: cs) = [] := List.eq_nil_of_length_eq_zero (by omega)
    exact hsp.1 (String.ext hne)

/-- What the callback of `ZipDirectory` does at the root. -/
theorem zipWalkFn_root (env : Env) (hok : ∀ op, env.fails op = false) (source : Path)
    (archive : List ZipFile) (node : Node) :
    utils.zipWalkFn env source archive (source ++ []) (some node) none = (archive, none) := by
  unfold utils.zipWalkFn
  simp only [hok, Bool.false_eq_true, if_false, Rel_self, filepath.ToSlash]
  cases node with
  | file s => simp [Node.IsDir]
  | dir es =>
    simp only [Node.IsDir, if_true]
    rw [if_pos (Or.inl (by decide))]

mutual
/-- When nothing fails, the walk of `ZipDirectory` over a well-formed tree writes the
entries of `packNode` and ends without error. -/
theorem walk_pack (env : Env) (hok : ∀ op, env.fails op = false) (source : Path) :
    (node : Node) → (rel : List String) → (acc : List ZipFile) →
    node.wellFormed = true → (∀ n ∈ rel, validName n = true) →
    filepath.walk env (utils.zipWalkFn env source) (source ++ rel) node acc
      = (acc ++ packNode rel node, none)
  | .file content, rel, acc, _, hv => by
    cases rel with
    | nil =>
      rw [filepath.walk, zipWalkFn_root env hok]
      simp [packNode]
    | cons c cs =>
      rw [filepath.walk, zipWalkFn_file env hok source acc c cs content hv]
      simp [packNode]
  | .dir es, rel, acc, hwf, hv => by
    have hwf' : wellFormedEntries es = true := by simpa [Node.wellFormed] using hwf
    cases rel with
    | nil =>
      rw [filepath.walk]
      simp only [hok, Bool.false_eq_true, if_false, zipWalkFn_root env hok, Option.isSome_none,
        Bool.or_self]
      rw [walkEntries_pack env hok source es [] acc hwf' hv]
      simp [packNode]
    | cons c cs =>
      rw [filepath.walk]
      simp only [hok, Bool.false_eq_true, if_false, zipWalkFn_dir env hok source acc c cs es hv,
        Option.isSome_none, Bool.or_self]
      rw [walkEntries_pack env hok source es (c :: cs) _ hwf' hv]
      simp [packNode]
/-- The loop over the entries of a directory, when nothing fails. -/
theorem walkEntries_pack (env : Env) (hok : ∀ op, env.fails op = false) (source : Path) :
    (es : List (String × Node)) → (rel : List String) → (acc : List ZipFile) →
    wellFormedEntries es = true → (∀ n ∈ rel, validName n = true) →
    filepath.walkEntries env (utils.zipWalkFn env source) (source ++ rel) es acc
      = (acc ++ packEntries rel es, none)
  | [], rel, acc, _, _ => by
    rw [filepath.walkEntries]
    simp [packEntries]
  | (n, child) :: rest, rel, acc, hwf, hv => by
    simp only [wellFormedEntries, Bool.and_eq_true] at hwf
    have hv' : ∀ m ∈ rel ++ [n], validName m = true := by
      intro m hm
      rcases List.mem_append.mp hm with hm | hm
      · exact hv m hm
      · rw [List.mem_singleton.mp hm]; exact hwf.1.1.1
    rw [filepath.walkEntries]
    simp only [hok, Bool.false_eq_true, if_false, List.append_assoc]
    rw [walk_pack env hok source child (rel ++ [n]) acc hwf.1.2 hv']
    simp only
    rw [walkEntries_pack env hok source rest rel _ hwf.2 hv]
    simp [packEntries]
end

mutual
/-- Every file of a tree has its entry among the packed entries. -/
theorem mem_packNode :
    (node : Node) → (pre rel : List String) → (content : String) →
    FS.lookup node rel = some (.file content) → pre ++ rel ≠ [] →
    (⟨filepath.joinSep (pre ++ rel), content⟩ : ZipFile) ∈ packNode pre node
  | .file c, pre, rel, content, h, hne => by
    cases rel with
    | nil =>
      simp only [FS.lookup, Option.some.injEq, Node.file.injEq] at h
      subst h
      have hp : pre ≠ [] := by simpa using hne
      simp [packNode, hp]
    | cons n rest => simp [FS.lookup] at h
  | .dir es, pre, rel, content, h, _ => by
    cases rel with
    | nil => simp [FS.lookup] at h
    | cons n rest =>
      simp only [FS.lookup] at h
      cases hf : FS.find es n with
      | none => simp [hf] at h
      | some child =>
        simp only [hf] at h
        have := mem_packEntries es pre n rest content child hf h
        simp only [packNode, List.mem_append]
        exact Or.inr this
/-- Every file below an entry of a directory has its entry among the packed entries. -/
theorem mem_packEntries :
    (es : List (String × Node)) → (pre : List String) → (n : String) → (rest : List String) →
    (content : String) → (child : Node) →
    FS.find es n = some child → FS.lookup child rest = some (.file content) →
    (⟨filepath.joinSep (pre ++ n :: rest), content⟩ : ZipFile) ∈ packEntries pre es
  | [], _, _, _, _, _, hf, _ => by simp [FS.find] at hf
  | (k, v) :: tail, pre, n, rest, content, child, hf, h => by
    simp only [packEntries, List.mem_append]
    by_cases hk : k = n
    · simp only [FS.find, if_pos hk, Option.some.injEq] at hf
      subst hk; subst hf
      left
      have := mem_packNode v (pre ++ [k]) rest content h (by simp)
      simpa using this
    · simp only [FS.find, if_neg hk] at hf
      right
      exact mem_packEntries tail pre n rest content child hf h
end

mutual
/-- Every packed entry of a well-formed tree is named after a path of valid names: a
file entry after the path of a file with that content, a directory entry after a path
followed by a slash. -/
theorem packNode_names :
    (node : Node) → (pre : List String) → node.wellFormed = true →
    ∀ e ∈ packNode pre node, ∃ s : List String,
      (∀ n ∈ s, validName n = true) ∧ pre ++ s ≠ [] ∧
      ((e.Name = filepath.joinSep (pre ++ s) ∧ FS.lookup node s = some (.file e.content)) ∨
        e.Name = filepath.joinSep (pre ++ s) ++ "/")
  | .file c, pre, _, e, he => by
    by_cases hp : pre = []
    · simp [packNode, hp] at he
    · simp only [packNode, if_neg hp, List.mem_singleton] at he
      subst he
      exact ⟨[], by simp, by simpa using hp, Or.inl ⟨by simp, by simp [FS.lookup]⟩⟩
  | .dir es, pre, hwf, e, he => by
    have hwf' : wellFormedEntries es = true := by simpa [Node.wellFormed] using hwf
    simp only [packNode, List.mem_append] at he
    rcases he with he | he
    · by_cases hp : pre = []
      · simp [hp] at he
      · simp only [if_neg hp, List.mem_singleton] at he
        subst he
        exact ⟨[], by simp, by simpa using hp, Or.inr (by simp)⟩
    · obtain ⟨s, hs, hv, h⟩ := packEntries_names es pre hwf' e he
      exact ⟨s, hv, by simp [hs], h⟩
/-- The entries packed from the entries of a well-formed directory. -/
theorem packEntries_names :
    (es : List (String × Node)) → (pre : List String) → wellFormedEntries es = true →
    ∀ e ∈ packEntries pre es, ∃ s : List String,
      s ≠ [] ∧ (∀ n ∈ s, validName n = true) ∧
      ((e.Name = filepath.joinSep (pre ++ s) ∧
          FS.lookup (.dir es) s = some (.file e.content)) ∨
        e.Name = filepath.joinSep (pre ++ s) ++ "/")
  | [], _, _, e, he => by simp [packEntries] at he
  | (k, v) :: tail, pre, hwf, e, he => by
    simp only [wellFormedEntries, Bool.and_eq_true] at hwf
    simp only [packEntries, List.mem_append] at he
    rcases he with he | he
    · obtain ⟨s, hv, _, h⟩ := packNode_names v (pre ++ [k]) hwf.1.2 e he
      refine ⟨k :: s, by simp, ?_, ?_⟩
      · intro n hn
        rcases List.mem_cons.mp hn with hn | hn
        · rw [hn]; exact hwf.1.1.1
        · exact hv n hn
      · rcases h with ⟨h1, h2⟩ | h1
        · left
          refine ⟨by simpa using h1, ?_⟩
          simp [FS.lookup, FS.find, h2]
        · right
          simpa using h1
    · obtain ⟨s, hs, hv, h⟩ := packEntries_names tail pre hwf.2 e he
      refine ⟨s, hs, hv, ?_⟩
      rcases h with ⟨h1, h2⟩ | h1
      · left
        refine ⟨h1, ?_⟩
        cases s with
        | nil => exact absurd rfl hs
        | cons k' s' =>
          have hk : ¬ k = k' := by
            intro hk
            subst hk
            have hnone : FS.find tail k = none := by
              have := hwf.1.1.2
              simpa using this
            simp [FS.lookup, hnone] at h2
          simp only [FS.lookup, FS.find, if_neg hk]
          simpa [FS.lookup] using h2
      · right
        exact h1
end

/-- The entries written by the walk of `ZipDirectory` over a well-formed directory when
nothing fails. -/
theorem zipWalk_eq_pack (env : Env) (hok : ∀ op, env.fails op = false) (fs : Node)
    (source : Path) (es : List (String × Node))
    (hsrc : FS.lookup fs source = some (.dir es)) (hwf : wellFormedEntries es = true) :
    utils.zipWalk env fs source = (packNode [] (.dir es), none) := by
  unfold utils.zipWalk filepath.Walk
  simp only [hok, Bool.false_eq_true, if_false, hsrc]
  have := walk_pack env hok source (.dir es) [] [] (by simpa [Node.wellFormed] using hwf)
    (by simp)
  simpa using this

/-- C5 (counterexample): a workspace with the single file `a\b`; the packed archive has
the entry `a\b`, and resolving the file's own relative path `a\b` finds nothing. -/
theorem backslash_file_not_resolved :
    (Node.dir [("a\\b", .file "x")]).wellFormed = true ∧
    (utils.zipWalk Examples.quietEnv Examples.backslashWorld.fs ["tmp", "sitespeed", "abc"])
      = ([⟨"a\\b", "x"⟩], none) ∧
    resolve
      (utils.zipWalk Examples.quietEnv Examples.backslashWorld.fs ["tmp", "sitespeed", "abc"]).1
      "a\\b" = none := by
  decide

/-- C5 (amended): when no operation fails, packing a well-formed directory tree and then
resolving the relative path of any of its regular files, provided that path contains no
backslash, returns the entry named by that path whose content is the content of the
file. -/
theorem packed_file_resolves (env : Env) (hok : ∀ op, env.fails op = false) (fs : Node)
    (source : Path) (es : List (String × Node))
    (hsrc : FS.lookup fs source = some (.dir es)) (hwf : wellFormedEntries es = true)
    (rel : List String) (content : String)
    (hfile : FS.lookup (.dir es) rel = some (.file content))
    (hbs : strings.Contains (filepath.joinSep rel) "\\" = false) :
    resolve (utils.zipWalk env fs source).1 (filepath.joinSep rel)
      = some ⟨filepath.joinSep rel, content⟩ := by
  have hwfn : (Node.dir es).wellFormed = true := by simpa [Node.wellFormed] using hwf
  have hrel : rel ≠ [] := by
    intro h
    subst h
    simp [FS.lookup] at hfile
  have hv := lookup_valid (.dir es) rel _ hwfn hfile
  have hmem := mem_packNode (.dir es) [] rel content hfile (by simpa using hrel)
  simp only [List.nil_append] at hmem
  rw [zipWalk_eq_pack env hok fs source es hsrc hwf]
  have hfirst : firstNamed (packNode [] (.dir es)) (filepath.joinSep rel)
      = some ⟨filepath.joinSep rel, content⟩ := by
    rw [firstNamed_eq_find]
    cases hf : List.find? (fun f => decide (f.Name = filepath.joinSep rel))
        (packNode [] (.dir es)) with
    | none =>
      rw [List.find?_eq_none] at hf
      have := hf _ hmem
      simp at this
    | some e =>
      have he := List.mem_of_find?_eq_some hf
      have hname : e.Name = filepath.joinSep rel := by
        have := List.find?_some hf
        simpa using this
      obtain ⟨s, hvs, hne, h⟩ := packNode_names (.dir es) [] hwfn e he
      simp only [List.nil_append] at hne h
      rcases h with ⟨h1, h2⟩ | h1
      · have hst : rel = s :=
          joinSep_injective rel s hrel hne hv hvs (by rw [← hname, h1])
        subst hst
        rw [hfile] at h2
        simp only [Option.some.injEq, Node.file.injEq] at h2
        obtain ⟨en, ec⟩ := e
        simp only at hname h2
        rw [hname, ← h2]
      · exact absurd (by rw [← hname, h1]) (joinSep_ne_slash rel s hrel hne hv hvs)
  unfold resolve
  have hne := (joinSep_ne_special rel hrel hv).1
  simp only [if_neg hne, ReplaceAll_no_backslash _ hbs, hfirst]

/-- Witness for the amended C5: the file `data/browsertime.summary-total.json` of the
example workspace. -/
theorem packed_file_resolves_witness :
    (∀ op, Examples.quietEnv.fails op = false) ∧
    resolve (utils.zipWalk Examples.quietEnv Examples.afterTool.fs ["tmp", "sitespeed", "abc"]).1
      (filepath.joinSep ["data", "browsertime.summary-total.json"])
      = some ⟨filepath.joinSep ["data", "browsertime.summary-total.json"], "ttfb-120.5"⟩ :=
  ⟨fun _ => rfl,
    packed_file_resolves Examples.quietEnv (fun _ => rfl) Examples.afterTool.fs
      ["tmp", "sitespeed", "abc"] _ (by rfl) (by decide)
      ["data", "browsertime.summary-total.json"] "ttfb-120.5" (by rfl) (by decide)⟩

/-! ## Cleanup of the workspace and of the temporary zip -/

theorem containsChars_slash (s : List Char) (h : strings.containsChars s ['/'] = false) :
    s.contains '/' = false := by
  induction s with
  | nil => rfl
  | cons c cs ih =>
    unfold strings.containsChars at h
    simp only [Bool.or_eq_false_iff] at h
    have hc : ¬ c = '/' := by
      intro hc
      subst hc
      simp at h
    simp only [List.contains_cons, Bool.or_eq_false_iff]
    refine ⟨?_, ih h.2⟩
    simp
    exact fun h' => hc h'.symm

theorem splitSep_no_slash (s : String) (h : strings.Contains s "/" = false) :
    filepath.splitSep s = [s] := by
  unfold filepath.splitSep
  rw [splitChars_no_slash s.data (containsChars_slash s.data h)]
  rfl

/-- For an identifier that passes the guard, the workspace path is not the root. -/
theorem resultDir_ne_nil (temp : Path) (id : String) (hid : invalidID id = false) :
    filepath.Join temp ["sitespeed", id] ≠ [] := by
  unfold invalidID at hid
  simp only [Bool.or_eq_false_iff, decide_eq_false_iff_not] at hid
  obtain ⟨⟨⟨_, hdd⟩, hslash⟩, _⟩ := hid
  have hne : id ≠ ".." := by
    intro h
    subst h
    exact absurd hdd (by decide)
  unfold filepath.Join filepath.Clean
  have hs : filepath.splitSep "sitespeed" = ["sitespeed"] := by decide
  simp only [List.flatMap_cons, List.flatMap_nil, List.append_nil, hs,
    splitSep_no_slash id hslash, List.foldl_append, List.foldl_cons, List.foldl_nil]
  have h1 : filepath.cleanStep (List.foldl filepath.cleanStep [] temp) "sitespeed"
      = List.foldl filepath.cleanStep [] temp ++ ["sitespeed"] := by
    unfold filepath.cleanStep
    rw [if_neg (by decide), if_neg (by decide)]
  rw [h1]
  unfold filepath.cleanStep
  split
  · simp
  · simp [hne]

theorem RemoveAll_fs (env : Env) (w : World) (p : Path)
    (h : env.fails (.RemoveAll p) = false) :
    (os.RemoveAll env w p).2.fs = FS.remove w.fs p := by
  unfold os.RemoveAll
  simp [h, World.record]

theorem RemoveAll_log (env : Env) (w : World) (p : Path) :
    ∃ b, (os.RemoveAll env w p).2.log = w.log ++ [(Op.RemoveAll p, b)] := by
  unfold os.RemoveAll
  split
  · exact ⟨false, rfl⟩
  · exact ⟨true, rfl⟩

/-- A removal leaves nothing at a path where there was nothing or a file. -/
theorem Remove_clears (env : Env) (w : World) (p : Path) (hf : env.fails (.Remove p) = false)
    (hp : p ≠ [])
    (h : FS.lookup w.fs p = none ∨ ∃ s, FS.lookup w.fs p = some (.file s)) :
    FS.lookup (os.Remove env w p).2.fs p = none := by
  unfold os.Remove
  simp only [hf, Bool.false_eq_true, if_false]
  rcases h with h | ⟨s, h⟩
  · simp only [h]
    exact h
  · simp only [h]
    exact FS.lookup_remove_self w.fs p hp

theorem Remove_log (env : Env) (w : World) (p : Path) :
    ∃ b, (os.Remove env w p).2.log = w.log ++ [(Op.Remove p, b)] := by
  unfold os.Remove
  repeat' split
  all_goals first
    | exact ⟨false, rfl⟩
    | exact ⟨true, rfl⟩

/-- A removal elsewhere leaves a file in place or removes it. -/
theorem Remove_keeps_file (env : Env) (w : World) (p q : Path)
    (h : FS.lookup w.fs q = none ∨ ∃ s, FS.lookup w.fs q = some (.file s)) :
    FS.lookup (os.Remove env w p).2.fs q = none ∨
      ∃ s, FS.lookup (os.Remove env w p).2.fs q = some (.file s) := by
  have hrem : FS.lookup (FS.remove w.fs p) q = none ∨
      ∃ s, FS.lookup (FS.remove w.fs p) q = some (.file s) := by
    rcases h with h | ⟨s, h⟩
    · exact Or.inl (FS.lookup_remove_none w.fs p q h)
    · rcases FS.lookup_remove_file w.fs p q s h with h1 | h1
      · exact Or.inl h1
      · exact Or.inr ⟨s, h1⟩
  unfold os.Remove
  repeat' split
  all_goals first
    | exact h
    | exact hrem

theorem Stat_snd (env : Env) (w : World) (p : Path) :
    ∃ b, (os.Stat env w p).2 = w.record (.Stat p) b := by
  unfold os.Stat
  repeat' split
  all_goals exact ⟨_, rfl⟩

theorem Open_snd (env : Env) (w : World) (p : Path) :
    ∃ b, (os.Open env w p).2 = w.record (.Open p) b := by
  unfold os.Open
  repeat' split
  all_goals exact ⟨_, rfl⟩

theorem ReadDir_snd (env : Env) (w : World) (p : Path) :
    ∃ b, (os.ReadDir env w p).2 = w.record (.ReadDir p) b := by
  unfold os.ReadDir
  repeat' split
  all_goals exact ⟨_, rfl⟩

theorem UploadStream_snd (env : Env) (w : World) (key : String) (stream : Node) :
    (storage.UploadStream env w key stream).2.fs = w.fs ∧
    ∃ b, (storage.UploadStream env w key stream).2.log = w.log ++ [(Op.PutObject key, b)] := by
  unfold storage.UploadStream
  repeat' split
  all_goals exact ⟨rfl, _, rfl⟩

theorem UploadFile_snd (env : Env) (w : World) (key : String) (p : Path) :
    (storage.UploadFile env w key p).2.fs = w.fs ∧
    ∀ e ∈ (storage.UploadFile env w key p).2.log,
      e ∈ w.log ∨ (∃ b, e = (Op.Open p, b)) ∨ ∃ b, e = (Op.PutObject key, b) := by
  unfold storage.UploadFile
  obtain ⟨b, hb⟩ := Open_snd env w p
  cases ho : os.Open env w p with
  | mk r w1 =>
    rw [ho] at hb
    simp only at hb
    subst hb
    cases r with
    | error err =>
      refine ⟨rfl, fun e he => ?_⟩
      simp only [World.record, List.mem_append, List.mem_singleton] at he
      rcases he with he | he
      · exact Or.inl he
      · exact Or.inr (Or.inl ⟨b, he⟩)
    | ok file =>
      simp only
      obtain ⟨hfs, c, hl⟩ := UploadStream_snd env (w.record (.Open p) b) key file
      refine ⟨by rw [hfs]; rfl, fun e he => ?_⟩
      rw [hl] at he
      simp only [World.record, List.mem_append, List.mem_singleton] at he
      rcases he with (he | he) | he
      · exact Or.inl he
      · exact Or.inr (Or.inl ⟨b, he⟩)
      · exact Or.inr (Or.inr ⟨c, he⟩)
theorem Run_step (env : Env) (w w1 : World) (args : List String) (r : Option String)
    (e : Op × Bool) (hne : ∀ a b, e ≠ (Op.Run a, b))
    (heq : exec.Run env w args = (r, w1)) (hw : e ∉ w.log) : e ∉ w1.log := by
  have : w1 = (exec.Run env w args).2 := by rw [heq]
  subst this
  unfold exec.Run
  simp only [World.record, List.mem_append, List.mem_singleton, not_or]
  exact ⟨hw, hne _ _⟩

theorem ReadDir_step (env : Env) (w w1 : World) (p : Path)
    (r : Except Err (List (String × Node))) (e : Op × Bool)
    (hne : ∀ a b, e ≠ (Op.ReadDir a, b))
    (heq : os.ReadDir env w p = (r, w1)) (hw : e ∉ w.log) : e ∉ w1.log := by
  obtain ⟨b, hb⟩ := ReadDir_snd env w p
  rw [heq] at hb
  simp only at hb
  subst hb
  simp only [World.record, List.mem_append, List.mem_singleton, not_or]
  exact ⟨hw, hne _ _⟩

theorem Open_step (env : Env) (w w1 : World) (p : Path) (r : Except Err Node) (e : Op × Bool)
    (hne : ∀ a b, e ≠ (Op.Open a, b))
    (heq : os.Open env w p = (r, w1)) (hw : e ∉ w.log) : e ∉ w1.log := by
  obtain ⟨b, hb⟩ := Open_snd env w p
  rw [heq] at hb
  simp only at hb
  subst hb
  simp only [World.record, List.mem_append, List.mem_singleton, not_or]
  exact ⟨hw, hne _ _⟩

theorem readPageXray_step (env : Env) (w w1 : World) (p : Path) (r : models.PageXray)
    (e : Op × Bool) (hne : ∀ a b, e ≠ (Op.Open a, b))
    (heq : readPageXray env w p = (r, w1)) (hw : e ∉ w.log) : e ∉ w1.log := by
  unfold readPageXray at heq
  cases ho : os.Open env w p with
  | mk r0 w0 =>
    have h0 := Open_step env w w0 p r0 e hne ho hw
    rw [ho] at heq
    cases r0 with
    | error err =>
      simp only [Prod.mk.injEq] at heq
      rw [← heq.2]; exact h0
    | ok f =>
      simp only [Prod.mk.injEq] at heq
      rw [← heq.2]; exact h0

theorem readPageXray_log (env : Env) (w : World) (p : Path) (e : Op × Bool)
    (hne : ∀ a b, e ≠ (Op.Open a, b)) (hw : e ∉ w.log) :
    e ∉ (readPageXray env w p).2.log :=
  readPageXray_step env w (readPageXray env w p).2 p (readPageXray env w p).1 e hne rfl hw

theorem uploadScreenshot_step (env : Env) (w : World) (key : String) (p : Path)
    (e : Op × Bool) (h1 : ∀ a b, e ≠ (Op.Open a, b)) (h2 : ∀ a b, e ≠ (Op.Stat a, b))
    (h3 : ∀ a b, e ≠ (Op.PutObject a, b)) (hw : e ∉ w.log) :
    e ∉ (uploadScreenshot env w key p).log := by
  unfold uploadScreenshot
  obtain ⟨b, hb⟩ := Stat_snd env w p
  have hw0 : e ∉ (w.record (.Stat p) b).log := by
    simp only [World.record, List.mem_append, List.mem_singleton, not_or]
    exact ⟨hw, h2 _ _⟩
  cases hs : os.Stat env w p with
  | mk r0 w0 =>
    rw [hs] at hb
    simp only at hb
    subst hb
    cases r0 with
    | error err => exact hw0
    | ok f =>
      simp only
      intro he
      rcases (UploadFile_snd env (w.record (.Stat p) b) key p).2 e he with h | ⟨c, h⟩ | ⟨c, h⟩
      · exact hw0 h
      · exact h1 _ _ h
      · exact h3 _ _ h

theorem Remove_step (env : Env) (w w1 : World) (p : Path) (r : Option Err) (e : Op × Bool)
    (hne : ∀ a b, e ≠ (Op.Remove a, b))
    (heq : os.Remove env w p = (r, w1)) (hw : e ∉ w.log) : e ∉ w1.log := by
  obtain ⟨b, hb⟩ := Remove_log env w p
  rw [heq] at hb
  simp only at hb
  rw [hb]
  simp only [List.mem_append, List.mem_singleton, not_or]
  exact ⟨hw, hne _ _⟩

theorem Remove_noEvent (env : Env) (w : World) (p : Path) (e : Op × Bool)
    (hne : ∀ a b, e ≠ (Op.Remove a, b)) (hw : e ∉ w.log) :
    e ∉ (os.Remove env w p).2.log :=
  Remove_step env w (os.Remove env w p).2 p (os.Remove env w p).1 e hne rfl hw

/-- The two ways in which `ZipDirectory` ends: the target could not be created and
nothing changed, or the target is now a file. -/
theorem ZipDirectory_cases (env : Env) (w : World) (source target : Path) :
    (∃ err, utils.ZipDirectory env w source target
        = (some err, w.record (.Create target) false)) ∨
    ∃ w1, utils.ZipDirectory env w source target = (none, w1) ∧ target ≠ [] ∧
      ∃ s, FS.lookup w1.fs target = some (.file s) := by
  unfold utils.ZipDirectory os.Create
  by_cases hc : env.fails (.Create target) = true
  · left; exact ⟨.fault, by simp [hc]⟩
  · simp only [hc, Bool.false_eq_true, if_false]
    have key : ∀ fs1, FS.put w.fs target (.file "") = some fs1 →
        ∃ w1, (match ((none : Option Err),
              ({ w.record (.Create target) true with fs := fs1 } : World)) with
            | (some err, w) => (some err, w)
            | (none, w) =>
              let err : Option Err := none
              let walked := utils.zipWalk env w.fs source
              let w := os.writeFile (w.record (.Walk source) walked.2.isNone) target
                (env.zipEncode walked.1)
              (err, w)) = (none, w1) ∧ target ≠ [] ∧
          ∃ s, FS.lookup w1.fs target = some (.file s) := by
      intro fs1 hp
      obtain ⟨fs2, hfs2⟩ := FS.put_put w.fs fs1 target (.file "")
        (.file (env.zipEncode (utils.zipWalk env fs1 source).1)) hp
      refine ⟨os.writeFile
        (({ w.record (.Create target) true with fs := fs1 } : World).record (.Walk source)
          (utils.zipWalk env fs1 source).2.isNone)
        target (env.zipEncode (utils.zipWalk env fs1 source).1), rfl,
        FS.put_ne_nil _ _ _ _ hp, env.zipEncode (utils.zipWalk env fs1 source).1, ?_⟩
      simp only [os.writeFile, World.record, hfs2]
      exact FS.lookup_put_self fs1 fs2 target _ hfs2
    cases hl : FS.lookup w.fs target with
    | some n =>
      cases n with
      | dir es => left; exact ⟨.isDir, rfl⟩
      | file s =>
        simp only
        cases hp : FS.put w.fs target (.file "") with
        | none => left; exact ⟨.notExist, rfl⟩
        | some fs1 => right; exact key fs1 hp
    | none =>
      simp only
      cases hp : FS.put w.fs target (.file "") with
      | none => left; exact ⟨.notExist, rfl⟩
      | some fs1 => right; exact key fs1 hp

theorem analyzeUpload_keeps (env : Env) (w : World) (id : String) (tempPath zipPath : Path)
    (bt : models.BrowserTime) (px : models.PageXray)
    (h : ∃ s, FS.lookup w.fs zipPath = some (.file s)) :
    FS.lookup (analyzeUpload env w id tempPath zipPath bt px).2.fs zipPath = none ∨
      ∃ s, FS.lookup (analyzeUpload env w id tempPath zipPath bt px).2.fs zipPath
        = some (.file s) := by
  unfold analyzeUpload
  have hfs := (UploadFile_snd env w ("results/" ++ id ++ "/result.zip") zipPath).1
  cases hu : storage.UploadFile env w ("results/" ++ id ++ "/result.zip") zipPath with
  | mk r w1 =>
    rw [hu] at hfs
    simp only at hfs
    cases r with
    | some err =>
      simp only
      rw [hfs]
      exact Or.inr h
    | none =>
      simp only
      exact Remove_keeps_file env w1 _ zipPath (by rw [hfs]; exact Or.inr h)
/-- Inside the workspace: if the run created the temporary zip, nothing is left at its
path when `analyzeWorkspace` returns. -/
theorem analyzeWorkspace_zip (env : Env) (w : World) (id : String)
    (req : models.ApiAnalyzeRequest) (tempPath resultDir : Path)
    (hrem : ∀ p, env.fails (.Remove p) = false)
    (hw : (Op.Create (filepath.Join tempPath [id ++ ".zip"]), true) ∉ w.log) :
    (Op.Create (filepath.Join tempPath [id ++ ".zip"]), true)
        ∈ (analyzeWorkspace env w id req tempPath resultDir).2.log →
      FS.lookup (analyzeWorkspace env w id req tempPath resultDir).2.fs
        (filepath.Join tempPath [id ++ ".zip"]) = none := by
  unfold analyzeWorkspace
  simp only []
  split
  · rename_i stderr w1 h1
    have := Run_step env w w1 _ _ _ (by simp) h1 hw
    exact fun h => absurd h this
  · rename_i w1 h1
    have hw1 := Run_step env w w1 _ _ _ (by simp) h1 hw
    split
    · rename_i err w2 h2
      have := ReadDir_step env w1 w2 _ _ _ (by simp) h2 hw1
      exact fun h => absurd h this
    · rename_i pages w2 h2
      have hw2 := ReadDir_step env w1 w2 _ _ _ (by simp) h2 hw1
      split
      · exact fun h => absurd h hw2
      · split
        · exact fun h => absurd h hw2
        · split
          · rename_i err w3 h3
            have := Open_step env w2 w3 _ _ _ (by simp) h3 hw2
            exact fun h => absurd h this
          · rename_i file w3 h3
            have hw3 := Open_step env w2 w3 _ _ _ (by simp) h3 hw2
            split
            · exact fun h => absurd h hw3
            · rename_i bt hbt
              have hw4 := readPageXray_log env w3
                (filepath.Join resultDir ["data", "pagexray.summary-total.json"])
                (Op.Create (filepath.Join tempPath [id ++ ".zip"]), true) (by simp) hw3
              generalize (readPageXray env w3
                (filepath.Join resultDir ["data", "pagexray.summary-total.json"])).2 = w4
                at hw4 ⊢
              generalize (readPageXray env w3
                (filepath.Join resultDir ["data", "pagexray.summary-total.json"])).1 = px
              have hw5 := uploadScreenshot_step env w4
                ("results/" ++ id ++ "/screenshot.png")
                (filepath.Join resultDir
                  ["pages", firstPage pages, "data", "screenshots", "1",
                    "afterPageCompleteCheck.png"])
                (Op.Create (filepath.Join tempPath [id ++ ".zip"]), true)
                (by simp) (by simp) (by simp) hw4
              generalize uploadScreenshot env w4 ("results/" ++ id ++ "/screenshot.png")
                (filepath.Join resultDir
                  ["pages", firstPage pages, "data", "screenshots", "1",
                    "afterPageCompleteCheck.png"]) = w5 at hw5 ⊢
              have hw6 := Remove_noEvent env w5 (filepath.Join tempPath [id ++ ".zip"])
                (Op.Create (filepath.Join tempPath [id ++ ".zip"]), true) (by simp) hw5
              generalize (os.Remove env w5 (filepath.Join tempPath [id ++ ".zip"])).2 = w6
                at hw6 ⊢
              rcases ZipDirectory_cases env w6 resultDir (filepath.Join tempPath [id ++ ".zip"])
                with ⟨err, hz⟩ | ⟨w7, hz, hne, hfile⟩
              · rw [hz]
                simp only
                intro h
                simp only [World.record, List.mem_append, List.mem_singleton, Prod.mk.injEq,
                  Bool.true_eq_false, and_false, or_false] at h
                exact absurd h hw6
              · rw [hz]
                simp only
                intro _
                exact Remove_clears env _ _ (hrem _) hne
                  (analyzeUpload_keeps env w7 id tempPath _ bt px hfile)

/-- C8: a run of `HandleAnalyze` that created the workspace directory, with removals that
do not fail, leaves no workspace directory `<temp>/sitespeed/<id>` when it returns,
whatever stage ended it; and if the run created the temporary zip `<temp>/<id>.zip`,
nothing is left at that path either. -/
theorem workspace_and_zip_removed (env : Env) (w : World) (id : String)
    (body : Option models.ApiAnalyzeRequest)
    (hlog : w.log = [])
    (hrem : ∀ p, env.fails (.RemoveAll p) = false ∧ env.fails (.Remove p) = false)
    (hcreated : (Op.MkdirAll (filepath.Join env.TempDir ["sitespeed", id]), true)
      ∈ (HandleAnalyze env w id body).2.log) :
    FS.lookup (HandleAnalyze env w id body).2.fs (filepath.Join env.TempDir ["sitespeed", id])
      = none ∧
    ((Op.Create (filepath.Join env.TempDir [id ++ ".zip"]), true)
        ∈ (HandleAnalyze env w id body).2.log →
      FS.lookup (HandleAnalyze env w id body).2.fs (filepath.Join env.TempDir [id ++ ".zip"])
        = none) := by
  unfold HandleAnalyze at hcreated ⊢
  by_cases hid : invalidID id = true
  · rw [if_pos hid] at hcreated
    simp [hlog] at hcreated
  · rw [if_neg hid] at hcreated ⊢
    have hid' : invalidID id = false := by simpa using hid
    cases body with
    | none => simp [hlog] at hcreated
    | some req =>
      simp only at hcreated ⊢
      by_cases hlen : req.URLs.length = 0 ∨ req.URLs.length > 5
      · rw [if_pos hlen] at hcreated
        simp [hlog] at hcreated
      · rw [if_neg hlen] at hcreated ⊢
        cases hfind : req.URLs.find? (fun u => !url.ParseRequestURI env.parseTail u) with
        | some u =>
          rw [hfind] at hcreated
          simp [hlog] at hcreated
        | none =>
          rw [hfind] at hcreated
          simp only at hcreated ⊢
          generalize hrd : filepath.Join env.TempDir ["sitespeed", id] = resultDir
            at hcreated ⊢
          have hrdne : resultDir ≠ [] := by
            rw [← hrd]; exact resultDir_ne_nil env.TempDir id hid'
          obtain ⟨b0, hl0⟩ := RemoveAll_log env w resultDir
          rcases MkdirAll_cases env (os.RemoveAll env w resultDir).2 resultDir with
            ⟨e, hm⟩ | ⟨fs, _, hm⟩
          · rw [hm] at hcreated
            simp [World.record, hl0, hlog] at hcreated
          · rw [hm]
            simp only
            generalize hw2 : ({ (os.RemoveAll env w resultDir).2.record (.MkdirAll resultDir) true
              with fs := fs } : World) = w2
            have hw2log : (Op.Create (filepath.Join env.TempDir [id ++ ".zip"]), true)
                ∉ w2.log := by
              rw [← hw2]
              simp [World.record, hl0, hlog]
            have hzip := analyzeWorkspace_zip env w2 id req env.TempDir resultDir
              (fun p => (hrem p).2) hw2log
            refine ⟨?_, ?_⟩
            · rw [RemoveAll_fs env _ resultDir (hrem resultDir).1]
              exact FS.lookup_remove_self _ resultDir hrdne
            · intro h
              obtain ⟨b1, hl1⟩ := RemoveAll_log env
                (analyzeWorkspace env w2 id req env.TempDir resultDir).2 resultDir
              rw [hl1] at h
              rw [RemoveAll_fs env _ resultDir (hrem resultDir).1]
              rcases List.mem_append.mp h with h | h
              · exact FS.lookup_remove_none _ _ _ (hzip h)
              · simp at h
/-- Witness for C8: the successful run of job `abc` created the workspace and the
temporary zip, and neither exists when the call returns. -/
theorem workspace_and_zip_removed_witness :
    Examples.emptyWorld.log = [] ∧
    (∀ p, Examples.toolEnv.fails (.RemoveAll p) = false ∧
      Examples.toolEnv.fails (.Remove p) = false) ∧
    (Op.MkdirAll (filepath.Join Examples.toolEnv.TempDir ["sitespeed", "abc"]), true)
      ∈ (HandleAnalyze Examples.toolEnv Examples.emptyWorld "abc"
          (some ⟨["https://example.com"]⟩)).2.log ∧
    (Op.Create (filepath.Join Examples.toolEnv.TempDir ["abc" ++ ".zip"]), true)
      ∈ (HandleAnalyze Examples.toolEnv Examples.emptyWorld "abc"
          (some ⟨["https://example.com"]⟩)).2.log ∧
    FS.lookup
      (HandleAnalyze Examples.toolEnv Examples.emptyWorld "abc"
        (some ⟨["https://example.com"]⟩)).2.fs
      (filepath.Join Examples.toolEnv.TempDir ["sitespeed", "abc"]) = none ∧
    FS.lookup
      (HandleAnalyze Examples.toolEnv Examples.emptyWorld "abc"
        (some ⟨["https://example.com"]⟩)).2.fs
      (filepath.Join Examples.toolEnv.TempDir ["abc" ++ ".zip"]) = none :=
  ⟨rfl, fun _ => ⟨rfl, rfl⟩, by decide, by decide,
    (workspace_and_zip_removed Examples.toolEnv Examples.emptyWorld "abc"
      (some ⟨["https://example.com"]⟩) rfl (fun _ => ⟨rfl, rfl⟩) (by decide)).1,
    (workspace_and_zip_removed Examples.toolEnv Examples.emptyWorld "abc"
      (some ⟨["https://example.com"]⟩) rfl (fun _ => ⟨rfl, rfl⟩) (by decide)).2 (by decide)⟩

/-! ## Workspaces of identifiers other than `.` -/

/-- For an identifier that passes the guard and is not `.`, the workspace is the child
`<id>` of the scratch root. -/
theorem workspace_is_child (temp : Path) (id : String) (hid : invalidID id = false)
    (hdot : id ≠ ".") :
    filepath.Join temp ["sitespeed", id] = filepath.Clean temp ++ ["sitespeed", id] := by
  unfold invalidID at hid
  simp only [Bool.or_eq_false_iff, decide_eq_false_iff_not] at hid
  obtain ⟨⟨⟨hempty, hdd⟩, hslash⟩, _⟩ := hid
  have hne : id ≠ ".." := by
    intro h
    subst h
    exact absurd hdd (by decide)
  unfold filepath.Join filepath.Clean
  have hs : filepath.splitSep "sitespeed" = ["sitespeed"] := by decide
  simp only [List.flatMap_cons, List.flatMap_nil, List.append_nil, hs,
    splitSep_no_slash id hslash, List.foldl_append, List.foldl_cons, List.foldl_nil]
  have h1 : filepath.cleanStep (List.foldl filepath.cleanStep [] temp) "sitespeed"
      = List.foldl filepath.cleanStep [] temp ++ ["sitespeed"] := by
    unfold filepath.cleanStep
    rw [if_neg (by decide), if_neg (by decide)]
  rw [h1]
  unfold filepath.cleanStep
  rw [if_neg (by intro h; rcases h with h | h; exact hempty h; exact hdot h), if_neg hne]
  simp

/-- Two distinct identifiers that pass the guard and are not `.` have distinct
workspaces, neither below the other. -/
theorem workspaces_not_nested (temp : Path) (id₁ id₂ : String)
    (h₁ : invalidID id₁ = false) (h₂ : invalidID id₂ = false)
    (hd₁ : id₁ ≠ ".") (hd₂ : id₂ ≠ ".") (hne : id₁ ≠ id₂) :
    ¬ (filepath.Join temp ["sitespeed", id₁] <+: filepath.Join temp ["sitespeed", id₂]) := by
  rw [workspace_is_child temp id₁ h₁ hd₁, workspace_is_child temp id₂ h₂ hd₂]
  intro h
  have hlen : (filepath.Clean temp ++ ["sitespeed", id₁]).length
      = (filepath.Clean temp ++ ["sitespeed", id₂]).length := by simp
  have heq := List.IsPrefix.eq_of_length h hlen
  have := List.append_cancel_left heq
  simp at this
  exact hne this

/-! ## Several read requests for one identifier -/

/-- `HandleGetResult` is its `os.Stat` followed by `afterStat`. -/
theorem HandleGetResult_eq_afterStat (env : Env) (w : World) (id path : String)
    (hid : invalidID id = false) :
    HandleGetResult env w id path =
      afterStat env
        (os.Stat env w (filepath.Join env.TempDir ["sitespeed-cache", id ++ ".zip"])).2 id path
        (os.Stat env w (filepath.Join env.TempDir ["sitespeed-cache", id ++ ".zip"])).1 := by
  unfold HandleGetResult afterStat
  rw [hid]
  simp only [Bool.false_eq_true, if_false]
  cases os.Stat env w (filepath.Join env.TempDir ["sitespeed-cache", id ++ ".zip"]) with
  | mk r w1 =>
    cases r with
    | ok n => rfl
    | error e => cases e <;> rfl

/-- C11 (counterexample): two requests for the cold identifier `abc` overlap, both see
no cache file, both download `results/abc/result.zip`: two downloads, not one, although
both are answered 200; served one after the other, the same two requests download
once. -/
theorem overlapping_requests_download_twice :
    (FS.lookup Examples.storedWorld.fs ["tmp", "sitespeed-cache", "abc.zip"]).isNone = true ∧
    downloads "results/abc/result.zip"
      (serveOverlapping Examples.archiveEnv Examples.storedWorld "abc" "" "").2.log = 2 ∧
    (serveOverlapping Examples.archiveEnv Examples.storedWorld "abc" "" "").1.1.status = 200 ∧
    (serveOverlapping Examples.archiveEnv Examples.storedWorld "abc" "" "").1.2.status = 200 ∧
    downloads "results/abc/result.zip"
      (serveSequentially Examples.archiveEnv Examples.storedWorld "abc" ["", ""]).log = 1 := by
  decide
theorem downloads_append (key : String) (l l' : List (Op × Bool)) :
    downloads key (l ++ l') = downloads key l + downloads key l' := by
  simp [downloads, List.filter_append]

theorem serveEntry_downloads (env : Env) (w : World) (zipPath : Path) (path key : String) :
    downloads key (serveEntry env w zipPath path).2.log = downloads key w.log := by
  rcases serveEntry_snd env w zipPath path with ⟨b, h⟩ | ⟨b, n, c, h⟩
  · rw [h]
    simp [World.record, downloads_append, downloads]
  · rw [h]
    simp [World.record, downloads_append, downloads]

theorem after_download_count (env : Env) (w3 : World) (zipPath : Path) (path key : String)
    (r : Option Err) :
    downloads key (match (r, w3) with
      | (some _, w) => (httpNotFound, w)
      | (none, w) => serveEntry env w zipPath path).2.log = downloads key w3.log := by
  cases r with
  | some err => rfl
  | none => exact serveEntry_downloads env w3 zipPath path key

theorem Stat_warm (env : Env) (w : World) (p : Path) (n : Node)
    (h : FS.lookup w.fs p = some n) :
    os.Stat env w p = (.error .fault, w.record (.Stat p) false) ∨
    os.Stat env w p = (.ok n, w.record (.Stat p) true) := by
  unfold os.Stat
  by_cases hf : env.fails (.Stat p) = true
  · left; simp [hf]
  · right; simp [hf, h]

/-- A request that finds the cache file downloads nothing and leaves the filesystem as
it is. -/
theorem warm_request (env : Env) (w : World) (id path : String) (n : Node)
    (hid : invalidID id = false)
    (hwarm : FS.lookup w.fs (filepath.Join env.TempDir ["sitespeed-cache", id ++ ".zip"])
      = some n) :
    (HandleGetResult env w id path).2.fs = w.fs ∧
    downloads ("results/" ++ id ++ "/result.zip") (HandleGetResult env w id path).2.log
      = downloads ("results/" ++ id ++ "/result.zip") w.log := by
  rw [HandleGetResult_eq_afterStat env w id path hid]
  rcases Stat_warm env w _ n hwarm with hs | hs
  · rw [hs]
    unfold afterStat
    simp only
    refine ⟨by rw [serveEntry_fs]; rfl, ?_⟩
    rw [serveEntry_downloads]
    simp [World.record, downloads_append, downloads]
  · rw [hs]
    unfold afterStat
    simp only
    refine ⟨by rw [serveEntry_fs]; rfl, ?_⟩
    rw [serveEntry_downloads]
    simp [World.record, downloads_append, downloads]

/-- Requests served one after another on a warm cache download nothing. -/
theorem serveSequentially_warm (env : Env) (id : String) (n : Node)
    (hid : invalidID id = false) (rest : List String) :
    ∀ w : World,
      FS.lookup w.fs (filepath.Join env.TempDir ["sitespeed-cache", id ++ ".zip"]) = some n →
      (serveSequentially env w id rest).fs = w.fs ∧
      downloads ("results/" ++ id ++ "/result.zip") (serveSequentially env w id rest).log
        = downloads ("results/" ++ id ++ "/result.zip") w.log := by
  induction rest with
  | nil => intro w _; exact ⟨rfl, rfl⟩
  | cons path rest ih =>
    intro w hwarm
    obtain ⟨hfs, hd⟩ := warm_request env w id path n hid hwarm
    obtain ⟨hfs', hd'⟩ := ih (HandleGetResult env w id path).2 (by rw [hfs]; exact hwarm)
    simp only [serveSequentially]
    exact ⟨by rw [hfs', hfs], by rw [hd', hd]⟩

/-- A request on a cold identifier whose copy completed made one download, and the
cache file holds the stored object. -/
theorem cold_request_completed (env : Env) (w : World) (id path : String)
    (hid : invalidID id = false) (hlog : w.log = [])
    (hcold : FS.lookup w.fs (filepath.Join env.TempDir ["sitespeed-cache", id ++ ".zip"])
      = none)
    (hdone : (Op.Copy (filepath.Join env.TempDir ["sitespeed-cache", id ++ ".zip"]), true)
      ∈ (HandleGetResult env w id path).2.log) :
    downloads ("results/" ++ id ++ "/result.zip") (HandleGetResult env w id path).2.log = 1 ∧
    ∃ body, w.store ("results/" ++ id ++ "/result.zip") = some body ∧
      FS.lookup (HandleGetResult env w id path).2.fs
        (filepath.Join env.TempDir ["sitespeed-cache", id ++ ".zip"]) = some (.file body) := by
  rw [HandleGetResult_eq_afterStat env w id path hid] at hdone ⊢
  unfold afterStat at hdone ⊢
  simp only [] at hdone ⊢
  generalize filepath.Join env.TempDir ["sitespeed-cache", id ++ ".zip"] = zp
    at hcold hdone ⊢
  generalize "results/" ++ id ++ "/result.zip" = key at hdone ⊢
  rcases Stat_cold env w zp hcold with hs | hs
  · rw [hs] at hdone
    simp only at hdone
    rcases serveEntry_log env _ zp path _ hdone with h1 | ⟨b, h1⟩ | ⟨n, b, h1⟩
    · simp [World.record, hlog] at h1
    · simp at h1
    · simp at h1
  · rw [hs] at hdone ⊢
    simp only at hdone ⊢
    rcases MkdirAll_cases env (w.record (.Stat zp) false) (filepath.Dir zp) with
      ⟨e, hm⟩ | ⟨fs, hmk, hm⟩
    · rw [hm] at hdone
      simp [World.record, hlog] at hdone
    · rw [hm] at hdone ⊢
      simp only at hdone ⊢
      generalize hw2 : ({ (w.record (.Stat zp) false).record (.MkdirAll (filepath.Dir zp)) true
        with fs := fs } : World) = w2 at hdone ⊢
      have hw2store : w2.store = w.store := by rw [← hw2]; rfl
      have hw2log : w2.log = [(Op.Stat zp, false), (Op.MkdirAll (filepath.Dir zp), true)] := by
        rw [← hw2]; simp [World.record, hlog]
      obtain ⟨hfs, hl⟩ := after_download env (storage.DownloadFile env w2 key zp).2 zp path
        (storage.DownloadFile env w2 key zp).1
      have hcount := after_download_count env (storage.DownloadFile env w2 key zp).2 zp path key
        (storage.DownloadFile env w2 key zp).1
      rcases DownloadFile_cases env w2 key zp with
        ⟨_, h2⟩ | ⟨_, h2⟩ | h2 | ⟨h2, body, hb, hlook⟩
      · rcases hl _ hdone with h3 | ⟨b, h3⟩ | ⟨n, b, h3⟩
        · simp [h2, hw2log] at h3
        · simp at h3
        · simp at h3
      · rcases hl _ hdone with h3 | ⟨b, h3⟩ | ⟨n, b, h3⟩
        · simp [h2, hw2log] at h3
        · simp at h3
        · simp at h3
      · rcases hl _ hdone with h3 | ⟨b, h3⟩ | ⟨n, b, h3⟩
        · simp [h2, hw2log] at h3
        · simp at h3
        · simp at h3
      · refine ⟨?_, body, by rw [← hw2store]; exact hb, by rw [hfs]; exact hlook⟩
        rw [hcount, h2, hw2log]
        simp [downloads]

/-- C11 (amended): requests for a cold identifier served one after another, of which
the first completes its download, make exactly one download of
`results/<id>/result.zip` however many follow, and the one cache file holds the stored
object for all of them. -/
theorem sequential_requests_download_once (env : Env) (w : World) (id path : String)
    (rest : List String)
    (hid : invalidID id = false) (hlog : w.log = [])
    (hcold : FS.lookup w.fs (filepath.Join env.TempDir ["sitespeed-cache", id ++ ".zip"])
      = none)
    (hdone : (Op.Copy (filepath.Join env.TempDir ["sitespeed-cache", id ++ ".zip"]), true)
      ∈ (HandleGetResult env w id path).2.log) :
    downloads ("results/" ++ id ++ "/result.zip")
      (serveSequentially env w id (path :: rest)).log = 1 ∧
    ∃ body, w.store ("results/" ++ id ++ "/result.zip") = some body ∧
      FS.lookup (serveSequentially env w id (path :: rest)).fs
        (filepath.Join env.TempDir ["sitespeed-cache", id ++ ".zip"]) = some (.file body) := by
  obtain ⟨hcount, body, hstore, hfile⟩ := cold_request_completed env w id path hid hlog hcold hdone
  obtain ⟨hfs, hd⟩ := serveSequentially_warm env id (.file body) hid rest
    (HandleGetResult env w id path).2 hfile
  simp only [serveSequentially]
  exact ⟨by rw [hd, hcount], body, hstore, by rw [hfs]; exact hfile⟩

/-- Witness for the amended C11: three requests for `abc`, one after the other. -/
theorem sequential_requests_download_once_witness :
    invalidID "abc" = false ∧ Examples.storedWorld.log = [] ∧
    FS.lookup Examples.storedWorld.fs
      (filepath.Join Examples.archiveEnv.TempDir ["sitespeed-cache", "abc" ++ ".zip"]) = none ∧
    (Op.Copy (filepath.Join Examples.archiveEnv.TempDir ["sitespeed-cache", "abc" ++ ".zip"]),
        true) ∈ (HandleGetResult Examples.archiveEnv Examples.storedWorld "abc" "").2.log ∧
    downloads ("results/" ++ "abc" ++ "/result.zip")
      (serveSequentially Examples.archiveEnv Examples.storedWorld "abc"
        ("" :: ["index.html", "missing"])).log = 1 :=
  ⟨by decide, rfl, by rfl, by decide,
    (sequential_requests_download_once Examples.archiveEnv Examples.storedWorld "abc" ""
      ["index.html", "missing"] (by decide) rfl (by rfl) (by decide)).1⟩

end Sitespeed
